import Mathlib

/-!
# MessageTransmission: wire codec, deduplicating store, handoff queue, listener, dispatcher

A shallow embedding of the C sources of the repository
(`utils/custom_convectors.h`, `utils/custom_hash_map.h`, `utils/custom_queue.h`,
`utils/thread_utils.h`, `src/udp_sender.c`, `src/main.c`) together with theorems about them.

Conventions of the embedding.

* Unsigned machine integers are natural numbers; a conversion to a `w`-bit type is an
  explicit `% 2 ^ w`.
* A singly linked chain of nodes is the list of its nodes, head first.
* Memory allocation is assumed to succeed.
-/

namespace MessageTransmission

/-! ## Definitions -/

/-! ### `utils/message.h` -/

/-- The struct `Message` of `utils/message.h`: `uint16_t MessageSize`, `uint8_t MessageType`,
`uint64_t MessageId`, `uint64_t MessageData`. -/
structure Message where
  MessageSize : Nat
  MessageType : Nat
  MessageId : Nat
  MessageData : Nat
  deriving DecidableEq, Repr

/-- The field values of a `Message` fit their C types. -/
def Message.InRange (m : Message) : Prop :=
  m.MessageSize < 2 ^ 16 ∧ m.MessageType < 2 ^ 8 ∧ m.MessageId < 2 ^ 64 ∧ m.MessageData < 2 ^ 64

instance (m : Message) : Decidable m.InRange := by
  unfold Message.InRange; infer_instance

/-- Value of `sizeof(Message)` under the usual 8-byte alignment of `uint64_t`:
2 + 1 + 5 bytes of padding + 8 + 8. -/
def sizeof_Message : Nat := 24

/-! ### `utils/custom_convectors.h` and the libc conversions it calls -/

/-- Byte order of the machine the program runs on. -/
inductive Endian where
  | little
  | big
  deriving DecidableEq, Repr

/-- Reversal of the two bytes of a 16-bit value. -/
def bswap16 (x : Nat) : Nat :=
  (x % 256) * 256 + (x / 256 % 256)

/-- Reversal of the four bytes of a 32-bit value. -/
def bswap32 (x : Nat) : Nat :=
  (x % 256) * 16777216 + (x / 256 % 256) * 65536 + (x / 65536 % 256) * 256
    + (x / 16777216 % 256)

/-- The libc function `htons` (argument converted to `uint16_t`): the bytes are reversed on a
little-endian host and kept on a big-endian host. -/
def htons (host : Endian) (hostshort : Nat) : Nat :=
  match host with
  | .little => bswap16 (hostshort % 2 ^ 16)
  | .big => hostshort % 2 ^ 16

/-- The libc function `ntohs`. -/
def ntohs (host : Endian) (netshort : Nat) : Nat :=
  match host with
  | .little => bswap16 (netshort % 2 ^ 16)
  | .big => netshort % 2 ^ 16

/-- The libc function `htonl` (argument converted to `uint32_t`). -/
def htonl (host : Endian) (hostlong : Nat) : Nat :=
  match host with
  | .little => bswap32 (hostlong % 2 ^ 32)
  | .big => hostlong % 2 ^ 32

/-- The function `htonll` of `utils/custom_convectors.h`.  The test
`*(uint8_t*)&test == 1` succeeds exactly on a little-endian host. -/
def htonll (host : Endian) (hostlonglong : Nat) : Nat :=
  match host with
  | .little =>
    let high := htonl host ((hostlonglong >>> 32) % 2 ^ 32)
    let low := htonl host ((hostlonglong &&& 0xFFFFFFFF) % 2 ^ 32)
    ((low <<< 32) ||| high) % 2 ^ 64
  | .big => hostlonglong

/-- The function `ntohll` of `utils/custom_convectors.h`: it calls `htonll`. -/
def ntohll (host : Endian) (netlonglong : Nat) : Nat :=
  htonll host netlonglong

/-! ### The sender's encoding and the listener's decoding -/

/-- The conversions of `sendMessage` in `src/udp_sender.c`: `netMsg` is a copy of `msg` whose
three multi-byte fields are replaced. -/
def sendMessage_encode (host : Endian) (msg : Message) : Message :=
  let netMsg := msg
  let netMsg := { netMsg with MessageSize := htons host msg.MessageSize }
  let netMsg := { netMsg with MessageId := htonll host msg.MessageId }
  let netMsg := { netMsg with MessageData := htonll host msg.MessageData }
  netMsg

/-- The conversions of `receiverThread` in `src/main.c` after the `memcpy` of the buffer into
`msg`. -/
def receiverThread_decode (host : Endian) (msg : Message) : Message :=
  let msg := { msg with MessageSize := ntohs host msg.MessageSize }
  let msg := { msg with MessageId := ntohll host msg.MessageId }
  let msg := { msg with MessageData := ntohll host msg.MessageData }
  msg

/-! ### `utils/custom_hash_map.h` -/

/-- The struct `CustomHashMapNode` without its `next` link: a bucket's chain of nodes is
the list of its nodes, head first. -/
structure CustomHashMapNode where
  key : Nat
  value : Message
  deriving DecidableEq, Repr

/-- The struct `BucketArray`: `buckets[i]` is the chain hanging from slot `i`, `size` the
number of slots. -/
structure BucketArray where
  buckets : List (List CustomHashMapNode)
  size : Nat
  deriving DecidableEq, Repr

/-- The struct `CustomHashMap`.  `size_t` is taken to be 64 bits wide; since every node and
every slot occupies memory of its own, `num_elements` and `size` stay far below `2 ^ 64`
and neither `num_elements++` nor `size * 2` wraps. -/
structure CustomHashMap where
  buckets : BucketArray
  num_elements : Nat
  deriving DecidableEq, Repr

/-- The function `hash_function`: the key itself (the conversion of a `uint64_t` to a
64-bit `size_t` keeps the value). -/
def hash_function (key : Nat) : Nat := key

/-- The function `hash_map_create`: `initial_size` zero-initialised slots. -/
def hash_map_create (initial_size : Nat) : CustomHashMap :=
  { buckets := { buckets := List.replicate initial_size [], size := initial_size },
    num_elements := 0 }

/-- The function `get_bucket_index`.  With a bucket count of zero the C code divides by
zero; the results about the map assume at least one bucket. -/
def get_bucket_index (map : CustomHashMap) (key : Nat) : Nat :=
  hash_function key % map.buckets.size

/-- The two statements `node->next = buckets[index]; buckets[index].ptr = node;` shared by
`hash_map_resize` and `hash_map_insert`: the node becomes the head of the chain of slot
`index`. -/
def bucket_push_front (buckets : List (List CustomHashMapNode)) (index : Nat)
    (node : CustomHashMapNode) : List (List CustomHashMapNode) :=
  buckets.set index (node :: buckets.getD index [])

/-- The inner `while (current)` loop of `hash_map_resize`, run over one old chain from its
head: every node is relinked as the head of slot `key % new_size` of the new array. -/
def rehash_chain (new_size : Nat) (new_buckets : List (List CustomHashMapNode))
    (chain : List CustomHashMapNode) : List (List CustomHashMapNode) :=
  chain.foldl
    (fun nb current => bucket_push_front nb (hash_function current.key % new_size) current)
    new_buckets

/-- The function `hash_map_resize`: a zero-initialised array of twice the size, filled by
walking the old slots `0 .. size - 1` in order. -/
def hash_map_resize (map : CustomHashMap) : CustomHashMap :=
  let old_ba := map.buckets
  let new_size := old_ba.size * 2
  let new_buckets := (List.range old_ba.size).foldl
    (fun nb i => rehash_chain new_size nb (old_ba.buckets.getD i []))
    (List.replicate new_size [])
  { map with buckets := { buckets := new_buckets, size := new_size } }

/-- The search loop of `hash_map_insert`: on the first node of the chain whose key is `key`
the value is overwritten (`current->value = value; return;`) and the new chain is returned;
`none` when the loop runs off the end of the chain. -/
def chain_update (key : Nat) (value : Message) :
    List CustomHashMapNode → Option (List CustomHashMapNode)
  | [] => none
  | current :: next =>
    if current.key = key then some ({ current with value := value } :: next)
    else (chain_update key value next).map (fun rest => current :: rest)

/-- The test `(map->num_elements + 1.0) / ba->size > 0.75` of `hash_map_insert`, as the
comparison of the exact quotient with 3/4.  The C test is computed in `double`; the two
agree whenever both operands are below `2 ^ 52`, and no theorem below depends on which
way the test goes. -/
def load_factor_exceeded (num_elements size : Nat) : Bool :=
  decide (3 * size < 4 * (num_elements + 1))

/-- The last block of `hash_map_insert` ("Create and insert new node"): a new node becomes
the head of slot `index` and `num_elements` is incremented. -/
def hash_map_insert_new_node (map : CustomHashMap) (index key : Nat) (value : Message) :
    CustomHashMap :=
  let ba := map.buckets
  let new_node : CustomHashMapNode := { key := key, value := value }
  { buckets := { ba with buckets := bucket_push_front ba.buckets index new_node },
    num_elements := map.num_elements + 1 }

/-- The function `hash_map_insert`. -/
def hash_map_insert (map : CustomHashMap) (key : Nat) (value : Message) : CustomHashMap :=
  let index := get_bucket_index map key
  let ba := map.buckets
  match chain_update key value (ba.buckets.getD index []) with
  | some chain => { map with buckets := { ba with buckets := ba.buckets.set index chain } }
  | none =>
    if load_factor_exceeded map.num_elements ba.size then
      let map := hash_map_resize map
      let index := get_bucket_index map key
      hash_map_insert_new_node map index key value
    else
      hash_map_insert_new_node map index key value

/-- The search loop of `hash_map_contains` over one chain. -/
def chain_contains (key : Nat) : List CustomHashMapNode → Nat
  | [] => 0
  | current :: next => if current.key = key then 1 else chain_contains key next

/-- The function `hash_map_contains`: `1` when found, `0` when not. -/
def hash_map_contains (map : CustomHashMap) (key : Nat) : Nat :=
  let index := get_bucket_index map key
  let ba := map.buckets
  chain_contains key (ba.buckets.getD index [])

/-- The function `hash_map_size`. -/
def hash_map_size (map : CustomHashMap) : Nat :=
  map.num_elements

/-- A sequence of calls `hash_map_insert(map, key, value)`, applied from left to right. -/
def hash_map_insert_all (map : CustomHashMap) (inserts : List (Nat × Message)) :
    CustomHashMap :=
  inserts.foldl (fun map kv => hash_map_insert map kv.1 kv.2) map

/-! Observations of a map used to state the theorems (they are not functions of the C code). -/

/-- All nodes of the map, slot by slot, each chain from its head. -/
def CustomHashMap.entries (map : CustomHashMap) : List CustomHashMapNode :=
  map.buckets.buckets.flatten

/-- The keys of all nodes of the map. -/
def CustomHashMap.keys (map : CustomHashMap) : List Nat :=
  map.entries.map CustomHashMapNode.key

/-- The value a chain walk from the head of slot `key % size` meets first under `key`. -/
def CustomHashMap.stored (map : CustomHashMap) (key : Nat) : Option Message :=
  ((map.buckets.buckets.getD (get_bucket_index map key) []).find?
    (fun node => decide (node.key = key))).map CustomHashMapNode.value

/-- The map has at least one slot, its array has `size` slots, and every node sits in the
slot `key % size`. -/
def CustomHashMap.WellFormed (map : CustomHashMap) : Prop :=
  0 < map.buckets.size ∧ map.buckets.buckets.length = map.buckets.size ∧
    ∀ i, i < map.buckets.size → ∀ node ∈ map.buckets.buckets.getD i [],
      hash_function node.key % map.buckets.size = i

instance (map : CustomHashMap) : Decidable map.WellFormed := by
  unfold CustomHashMap.WellFormed; infer_instance

/-- The slots of an array of `n` slots hold only nodes whose key is congruent to the slot
number. -/
def SlotsOk (n : Nat) (buckets : List (List CustomHashMapNode)) : Prop :=
  buckets.length = n ∧
    ∀ i, i < n → ∀ node ∈ buckets.getD i [], hash_function node.key % n = i

/-! ### `utils/custom_queue.h` -/

/-- The struct `CustomQueue`.  `nodes` is the chain of stored values starting at `front`
(`front == NULL` is `nodes = []`, and `rear` points at the last node of the chain); `size`
is the `unsigned int` counter, 32 bits wide.  A stored `void*` is represented by the value
it points to. -/
structure CustomQueue (α : Type) where
  nodes : List α
  size : Nat
  deriving DecidableEq, Repr

/-- The function `queue_create`. -/
def queue_create {α : Type} : CustomQueue α :=
  { nodes := [], size := 0 }

/-- The function `queue_push`: the new node becomes the only node of an empty chain, or is
linked behind `rear`; then `q->size++` on an `unsigned int`. -/
def queue_push {α : Type} (q : CustomQueue α) (value : α) : CustomQueue α :=
  let nodes := match q.nodes with
    | [] => [value]
    | front :: rest => front :: (rest ++ [value])
  { nodes := nodes, size := (q.size + 1) % 2 ^ 32 }

/-- The function `queue_pop`: `NULL` (here `none`) and an untouched queue when `front` is
`NULL`; otherwise the value of the front node, which is unlinked, and `q->size--` on an
`unsigned int`. -/
def queue_pop {α : Type} (q : CustomQueue α) : Option α × CustomQueue α :=
  match q.nodes with
  | [] => (none, q)
  | value :: next => (some value, { nodes := next, size := (q.size + 2 ^ 32 - 1) % 2 ^ 32 })

/-- The function `queue_empty`: the value of `q->size == 0`. -/
def queue_empty {α : Type} (q : CustomQueue α) : Nat :=
  if q.size = 0 then 1 else 0

/-- One call on a queue. -/
inductive QueueOp (α : Type) where
  | push (value : α)
  | pop
  deriving DecidableEq, Repr

/-- A sequence of calls applied to a queue from left to right; the second component lists
what the calls of `queue_pop` returned, in call order. -/
def queue_run {α : Type} : CustomQueue α → List (QueueOp α) → CustomQueue α × List (Option α)
  | q, [] => (q, [])
  | q, QueueOp.push value :: ops => queue_run (queue_push q value) ops
  | q, QueueOp.pop :: ops =>
    let r := queue_run (queue_pop q).2 ops
    (r.1, (queue_pop q).1 :: r.2)

/-- The values passed to `queue_push` by a sequence of calls, in call order. -/
def QueueOp.pushed {α : Type} : List (QueueOp α) → List α
  | [] => []
  | QueueOp.push value :: ops => value :: QueueOp.pushed ops
  | QueueOp.pop :: ops => QueueOp.pushed ops

/-! ### `src/udp_sender.c`: the test messages -/

/-- The ten messages built by the loop of `main` in `src/udp_sender.c`:
`{sizeof(Message), 1, i % 5, (i % 3 == 0) ? 10 : i}` for `i = 0 .. 9`. -/
def udp_sender_messages : List Message :=
  (List.range 10).map (fun i =>
    { MessageSize := sizeof_Message, MessageType := 1, MessageId := i % 5,
      MessageData := if i % 3 = 0 then 10 else i })

/-! ### `src/main.c`: the listener -/

/-- A line written by `print_out` or `logError` in `src/main.c`.  `receiver` is the number
in the name `"Receiver %d"`. -/
inductive Output where
  /-- The line `"%s received: ID=%lu, Data=%lu\n"`. -/
  | received (receiver id data : Nat)
  /-- The line `"%s skipped duplicate ID=%lu\n"`. -/
  | skipped_duplicate (receiver id : Nat)
  /-- The call `logError("%s select failed")`. -/
  | select_failed (receiver : Nat)
  /-- The call `logError("%s recvfrom failed")`. -/
  | recvfrom_failed (receiver : Nat)
  /-- The call `logError(message)` with a constant message. -/
  | logError (message : String)
  deriving DecidableEq, Repr

/-- The globals of `src/main.c` a listener works on, and the lines written so far. -/
structure Shared where
  messageStore : CustomHashMap
  transmitQueue : CustomQueue Message
  output : List Output
  deriving DecidableEq, Repr

/-- The state set up by `main`: `hash_map_create(16)` and `queue_create()`. -/
def main_init : Shared :=
  { messageStore := hash_map_create 16, transmitQueue := queue_create, output := [] }

/-- The number in the listener's name: `port == 5000 ? 1 : 2`. -/
def receiver_number (port : Int) : Nat :=
  if port = 5000 then 1 else 2

/-- The critical section of `receiverThread` between `mutex_lock(&mtxStore)` and
`mutex_unlock(&mtxStore)`, for one decoded message. -/
def receiverThread_process (port : Int) (st : Shared) (msg : Message) : Shared :=
  if hash_map_contains st.messageStore msg.MessageId = 0 then
    let st := { st with messageStore := hash_map_insert st.messageStore msg.MessageId msg }
    let st := { st with
      output := st.output ++ [Output.received (receiver_number port) msg.MessageId msg.MessageData] }
    if msg.MessageData = 10 then
      { st with transmitQueue := queue_push st.transmitQueue msg }
    else st
  else
    { st with
      output := st.output ++ [Output.skipped_duplicate (receiver_number port) msg.MessageId] }

/-- The critical sections of the listeners run one after another (`mtxStore` keeps them
apart) for a sequence of arrivals, each the port of the listener and the message it
decoded. -/
def receiverThread_run (st : Shared) (arrivals : List (Int × Message)) : Shared :=
  arrivals.foldl (fun st arrival => receiverThread_process arrival.1 st arrival.2) st

/-- The messages of a sequence, in order, whose `MessageData` is the trigger value 10 and
whose `MessageId` is not the `MessageId` of an earlier message of the sequence. -/
def first_trigger_arrivals (msgs : List Message) : List Message :=
  (msgs.enum.filter (fun im =>
    decide (im.2.MessageData = 10 ∧
      im.2.MessageId ∉ (msgs.take im.1).map Message.MessageId))).map Prod.snd

/-- The state of the listeners after the messages `msgs` went through their critical
sections: the store holds each `MessageId` of `msgs` once, under it the first message that
carried it, and the queue holds `first_trigger_arrivals msgs`. -/
def RunInv (st : Shared) (msgs : List Message) : Prop :=
  st.messageStore.WellFormed ∧ st.messageStore.keys.Nodup ∧
    st.messageStore.num_elements = st.messageStore.keys.length ∧
    (∀ k, k ∈ st.messageStore.keys ↔ k ∈ msgs.map Message.MessageId) ∧
    (∀ id, st.messageStore.stored id = msgs.find? (fun m => decide (m.MessageId = id))) ∧
    st.transmitQueue.nodes = first_trigger_arrivals msgs

/-- What one pass through the body of the `while (!done)` loop of `receiverThread` meets:
the value returned by `select`, the value of `FD_ISSET`, the value returned by `recvfrom`,
whether `errno` is `EAGAIN` afterwards, and the `Message` object the received bytes form
in `buffer`. -/
structure RecvEvent where
  ready : Int
  fd_isset : Bool
  bytes : Int
  errno_EAGAIN : Bool
  frame : Message
  deriving DecidableEq, Repr

/-- How a pass through a loop body ends. -/
inductive LoopControl where
  /-- Back to the loop test. -/
  | next
  /-- The statement `break`. -/
  | stop
  deriving DecidableEq, Repr

/-- One pass through the body of the `while (!done)` loop of `receiverThread`. -/
def receiverThread_iteration (host : Endian) (port : Int) (st : Shared) (ev : RecvEvent) :
    Shared × LoopControl :=
  if ev.ready < 0 then
    ({ st with output := st.output ++ [Output.select_failed (receiver_number port)] },
      LoopControl.stop)
  else if ev.ready = 0 then (st, LoopControl.next)
  else if ev.fd_isset then
    if ev.bytes = (sizeof_Message : Int) then
      (receiverThread_process port st (receiverThread_decode host ev.frame), LoopControl.next)
    else if ev.bytes < 0 ∧ ev.errno_EAGAIN = false then
      ({ st with output := st.output ++ [Output.recvfrom_failed (receiver_number port)] },
        LoopControl.stop)
    else (st, LoopControl.next)
  else (st, LoopControl.next)

/-! ### `src/main.c`: the dispatcher's connection loop -/

/-- What one call of `connect` in `transmitterThread` meets: its return value, whether
`errno` is `EINPROGRESS` afterwards, and the value `FD_ISSET(sock, &write_fds)` would have
after the `select` that follows. -/
structure ConnectAttempt where
  ret : Int
  errno_EINPROGRESS : Bool
  writable : Bool
  deriving DecidableEq, Repr

/-- The state at the exit of the connection loop: the variable `retries`, the number of
calls of `connect` made, and the lines written. -/
structure ConnectState where
  retries : Nat
  calls : Nat
  output : List Output
  deriving DecidableEq, Repr

/-- The loop `while (connect(...) < 0 && retries > 0) { ... }` of `transmitterThread`,
entered with the given value of `retries` after `calls` earlier calls of `connect`;
`attempt k` is what call number `k` (counted from 0) meets.  The condition calls `connect`
before it looks at `retries`. -/
def connect_loop (attempt : Nat → ConnectAttempt) :
    (retries calls : Nat) → List Output → ConnectState
  | 0, calls, output => { retries := 0, calls := calls + 1, output := output }
  | retries + 1, calls, output =>
    if (attempt calls).ret < 0 then
      if (attempt calls).errno_EINPROGRESS && (attempt calls).writable then
        { retries := retries + 1, calls := calls + 1, output := output }
      else
        connect_loop attempt retries (calls + 1)
          (output ++ [Output.logError "TCP connect failed, retrying..."])
    else { retries := retries + 1, calls := calls + 1, output := output }

/-- Where `transmitterThread` stands after its connection phase. -/
inductive TransmitterPhase where
  /-- The thread returned at `if (retries == 0) { ...; return NULL; }`. -/
  | returned
  /-- The thread reached the loop `while (!done || !queue_empty(transmitQueue))`. -/
  | dispatching
  deriving DecidableEq, Repr

/-- The state of `transmitterThread` after its connection phase. -/
structure TransmitterState where
  phase : TransmitterPhase
  calls : Nat
  output : List Output
  transmitQueue : CustomQueue Message
  deriving DecidableEq, Repr

/-- The function `transmitterThread` from `int retries = 5;` up to the dispatch loop, after
a successful `socket` call.  No statement of this part touches `transmitQueue`. -/
def transmitterThread_connect (attempt : Nat → ConnectAttempt)
    (transmitQueue : CustomQueue Message) : TransmitterState :=
  let s := connect_loop attempt 5 0 []
  if s.retries = 0 then
    { phase := TransmitterPhase.returned, calls := s.calls,
      output := s.output ++ [Output.logError "TCP connection failed after retries"],
      transmitQueue := transmitQueue }
  else
    { phase := TransmitterPhase.dispatching, calls := s.calls, output := s.output,
      transmitQueue := transmitQueue }

/-- An attempt that is refused: `connect` returns `-1` with an `errno` other than
`EINPROGRESS`. -/
def ConnectAttempt.refused : ConnectAttempt :=
  { ret := -1, errno_EINPROGRESS := false, writable := false }

/-! ### Objects in memory -/

/-- The `width` bytes of an unsigned value, least significant byte first. -/
def le_bytes : Nat → Nat → List Nat
  | 0, _ => []
  | width + 1, v => (v % 256) :: le_bytes width (v / 256)

/-- The `width` bytes of an unsigned value, most significant byte first: network byte
order. -/
def be_bytes (width v : Nat) : List Nat :=
  (le_bytes width v).reverse

/-- The value whose bytes, least significant first, are the given ones. -/
def of_le_bytes : List Nat → Nat
  | [] => 0
  | b :: rest => b + 256 * of_le_bytes rest

/-- The bytes an unsigned object of `width` bytes occupies in the memory of the host, from
the lowest address. -/
def uint_bytes (host : Endian) (width v : Nat) : List Nat :=
  match host with
  | .little => le_bytes width v
  | .big => be_bytes width v

/-- Reversal of the eight bytes of a 64-bit value. -/
def bswap64 (x : Nat) : Nat :=
  of_le_bytes (le_bytes 8 x).reverse

/-- The five bytes of padding between `MessageType` and `MessageId` in the struct
`Message`; their content is whatever the memory held. -/
structure Padding where
  b3 : Nat
  b4 : Nat
  b5 : Nat
  b6 : Nat
  b7 : Nat
  deriving DecidableEq, Repr

/-- The `sizeof(Message)` bytes of a `Message` object in the memory of the host, which is
what `(char*)&netMsg` points at: `MessageSize` at offset 0, `MessageType` at offset 2,
padding, `MessageId` at offset 8 and `MessageData` at offset 16. -/
def Message_bytes (host : Endian) (padding : Padding) (m : Message) : List Nat :=
  uint_bytes host 2 m.MessageSize ++ uint_bytes host 1 m.MessageType
    ++ [padding.b3, padding.b4, padding.b5, padding.b6, padding.b7]
    ++ uint_bytes host 8 m.MessageId ++ uint_bytes host 8 m.MessageData

/-! ### `utils/thread_utils.h`: the send worker -/

/-- The struct `SendTask`. -/
structure SendTask where
  sock : Int
  msg : Message
  deriving DecidableEq, Repr

/-- The struct `ThreadPool`, as far as `pool_add_task` and the workers' loop test use it:
the queue of tasks and the `shutdown` flag.  The workers' pops are not part of this model,
so `tasks.nodes` lists the tasks submitted so far. -/
structure ThreadPool where
  tasks : CustomQueue SendTask
  shutdown : Nat
  deriving DecidableEq, Repr

/-- The function `pool_add_task`: the task is copied and pushed on `pool->tasks`. -/
def pool_add_task (pool : ThreadPool) (task : SendTask) : ThreadPool :=
  { pool with tasks := queue_push pool.tasks task }

/-- The conversions of `asyncSendWorker` before its send loop: `netMsg` is a copy of `msg`
whose three multi-byte fields are replaced. -/
def asyncSendWorker_encode (host : Endian) (msg : Message) : Message :=
  let netMsg := msg
  let netMsg := { netMsg with MessageSize := htons host msg.MessageSize }
  let netMsg := { netMsg with MessageId := htonll host msg.MessageId }
  let netMsg := { netMsg with MessageData := htonll host msg.MessageData }
  netMsg

/-- What one call of `send` in `asyncSendWorker` meets: its return value and, when that is
negative, whether `errno` is `EAGAIN` or `EWOULDBLOCK`. -/
structure SendOutcome where
  result : Int
  errno_transient : Bool
  deriving DecidableEq, Repr

/-- A line written by `asyncSendWorker`. -/
inductive WorkerOutput where
  /-- The call `logError("Async send failed for ID=%lu")`. -/
  | async_send_failed (id : Nat)
  /-- The line `"Transmitted: ID=%lu\n"`. -/
  | transmitted (id : Nat)
  deriving DecidableEq, Repr

/-- How far the send loop of `asyncSendWorker` got. -/
inductive SendStatus where
  /-- The test `sent < sizeof(Message)` failed: the loop ended. -/
  | completed
  /-- The loop was left by `break` after a failure of `send` that is not transient. -/
  | aborted
  /-- The loop is still running: it waits for a further call of `send` to return. -/
  | pending
  deriving DecidableEq, Repr

/-- The state of the send loop: the variable `sent`, the bytes `send` has accepted so far in
the order it accepted them, the lines written, and how far the loop got. -/
structure SendLoopState where
  sent : Nat
  wire : List Nat
  output : List WorkerOutput
  status : SendStatus
  deriving DecidableEq, Repr

/-- The loop `while (sent < sizeof(Message)) { ... }` of `asyncSendWorker` over the bytes
`frame` of `netMsg`, entered with the given values of `sent` and of the bytes accepted so
far; the list gives what the successive calls of `send` meet.  A call hands `send` the
bytes of `frame` from offset `sent` on; of these `send` accepts the first `result`. -/
def send_loop (frame : List Nat) (id : Nat) :
    List SendOutcome → (sent : Nat) → (wire : List Nat) → SendLoopState
  | [], sent, wire =>
    if sent < sizeof_Message then
      { sent := sent, wire := wire, output := [], status := SendStatus.pending }
    else { sent := sent, wire := wire, output := [], status := SendStatus.completed }
  | o :: rest, sent, wire =>
    if sent < sizeof_Message then
      if o.result < 0 then
        if o.errno_transient then send_loop frame id rest sent wire
        else
          { sent := sent, wire := wire, output := [WorkerOutput.async_send_failed id],
            status := SendStatus.aborted }
      else
        send_loop frame id rest (sent + o.result.toNat)
          (wire ++ (frame.drop sent).take o.result.toNat)
    else { sent := sent, wire := wire, output := [], status := SendStatus.completed }

/-- The body of the `while (1)` loop of `asyncSendWorker` for one task taken from the pool,
from `int sock = task->sock;` on.  When the send loop has ended, by its test or by `break`,
the line "Transmitted" is written and the socket closed. -/
def asyncSendWorker_task (host : Endian) (padding : Padding) (task : SendTask)
    (outcomes : List SendOutcome) : SendLoopState :=
  let msg := task.msg
  let netMsg := asyncSendWorker_encode host msg
  let r := send_loop (Message_bytes host padding netMsg) msg.MessageId outcomes 0 []
  match r.status with
  | SendStatus.pending => r
  | _ => { r with output := r.output ++ [WorkerOutput.transmitted msg.MessageId] }

/-- Every outcome of a list is a transient failure or accepts at least one byte and at most
the bytes that remain at that call. -/
def SendOutcomesOk : (remaining : Nat) → List SendOutcome → Prop
  | _, [] => True
  | remaining, o :: rest =>
    if o.result < 0 then o.errno_transient = true ∧ SendOutcomesOk remaining rest
    else 1 ≤ o.result.toNat ∧ o.result.toNat ≤ remaining ∧
      SendOutcomesOk (remaining - o.result.toNat) rest

/-- The sum of the byte counts accepted by the calls of a list. -/
def accepted_total : List SendOutcome → Nat
  | [] => 0
  | o :: rest => (if o.result < 0 then 0 else o.result.toNat) + accepted_total rest

/-! ### `src/main.c`: the dispatch loop -/

/-- The state of the dispatch loop of `transmitterThread`: the handoff queue, the pool, and
the number of passes that have called `queue_pop`, which is also the number of calls of
`dup` made. -/
structure DispatchState where
  transmitQueue : CustomQueue Message
  sendPool : ThreadPool
  pops : Nat
  deriving DecidableEq, Repr

/-- How a run of the dispatch loop ends. -/
inductive DispatchResult where
  /-- The loop test failed; the thread goes on to `close(sock)` and returns. -/
  | finished (st : DispatchState)
  /-- The thread sits in `cond_wait(&cv, &mtxQueue)`. -/
  | waiting (st : DispatchState)
  /-- The call `queue_pop` returned `NULL` and `*msg_ptr` was evaluated. -/
  | null_dereference (st : DispatchState)
  /-- The given number of passes did not suffice. -/
  | out_of_fuel (st : DispatchState)
  deriving DecidableEq, Repr

/-- The loop `while (!done || !queue_empty(transmitQueue)) { ... }` of `transmitterThread`,
run for at most `fuel` evaluations of its test while no other thread touches the queue and
`done` keeps its value.  `dup k` is the descriptor returned by call number `k` of
`dup(sock)`. -/
def transmitterThread_dispatch (done : Nat) (dup : Nat → Int) :
    (fuel : Nat) → DispatchState → DispatchResult
  | 0, st => DispatchResult.out_of_fuel st
  | fuel + 1, st =>
    if done ≠ 0 ∧ queue_empty st.transmitQueue = 1 then DispatchResult.finished st
    else if queue_empty st.transmitQueue = 1 then DispatchResult.waiting st
    else
      match queue_pop st.transmitQueue with
      | (none, _) => DispatchResult.null_dereference st
      | (some msg, q) =>
        let task : SendTask := { sock := dup st.pops, msg := msg }
        transmitterThread_dispatch done dup fuel
          { transmitQueue := q, sendPool := pool_add_task st.sendPool task,
            pops := st.pops + 1 }

/-! ### `src/main.c`: two listeners racing for `mtxStore` -/

/-- Where a listener stands in the part of `receiverThread` that handles one decoded
message. -/
inductive ReceiverPC where
  /-- About to call `mutex_lock(&mtxStore)`. -/
  | lock
  /-- Holding `mtxStore`, about to evaluate `!hash_map_contains(messageStore, msg.MessageId)`. -/
  | check
  /-- About to call `hash_map_insert`. -/
  | insert
  /-- About to print the line "received" and to test `msg.MessageData == 10`. -/
  | print_received
  /-- About to push a copy of the message on `transmitQueue`. -/
  | push
  /-- About to print the line "skipped duplicate". -/
  | print_skipped
  /-- About to call `mutex_unlock(&mtxStore)`. -/
  | unlock
  /-- Past the critical section. -/
  | done
  deriving DecidableEq, Repr

/-- A listener thread with the message it has decoded. -/
structure Listener where
  port : Int
  msg : Message
  pc : ReceiverPC
  deriving DecidableEq, Repr

/-- Two listeners, the globals they share, and the owner of `mtxStore` (`none` when the
mutex is free; `false` stands for the first listener, `true` for the second). -/
structure Race where
  shared : Shared
  mtxStore : Option Bool
  first : Listener
  second : Listener
  deriving DecidableEq, Repr

/-- One statement of listener `me`: the listener, the globals and the owner of `mtxStore`
afterwards.  A listener that calls `mutex_lock` while the mutex is held stays where it is,
and so does a listener past its critical section. -/
def Listener.step (me : Bool) (l : Listener) (shared : Shared) (mtxStore : Option Bool) :
    Listener × Shared × Option Bool :=
  match l.pc with
  | .lock =>
    match mtxStore with
    | none => ({ l with pc := .check }, shared, some me)
    | some _ => (l, shared, mtxStore)
  | .check =>
    if hash_map_contains shared.messageStore l.msg.MessageId = 0 then
      ({ l with pc := .insert }, shared, mtxStore)
    else ({ l with pc := .print_skipped }, shared, mtxStore)
  | .insert =>
    ({ l with pc := .print_received },
      { shared with
        messageStore := hash_map_insert shared.messageStore l.msg.MessageId l.msg },
      mtxStore)
  | .print_received =>
    ({ l with pc := if l.msg.MessageData = 10 then .push else .unlock },
      { shared with
        output := shared.output
          ++ [Output.received (receiver_number l.port) l.msg.MessageId l.msg.MessageData] },
      mtxStore)
  | .push =>
    ({ l with pc := .unlock },
      { shared with transmitQueue := queue_push shared.transmitQueue l.msg }, mtxStore)
  | .print_skipped =>
    ({ l with pc := .unlock },
      { shared with
        output := shared.output
          ++ [Output.skipped_duplicate (receiver_number l.port) l.msg.MessageId] },
      mtxStore)
  | .unlock => ({ l with pc := .done }, shared, none)
  | .done => (l, shared, mtxStore)

/-- The scheduler lets listener `who` run one statement. -/
def Race.step (c : Race) (who : Bool) : Race :=
  match who with
  | false =>
    let r := Listener.step false c.first c.shared c.mtxStore
    { c with first := r.1, shared := r.2.1, mtxStore := r.2.2 }
  | true =>
    let r := Listener.step true c.second c.shared c.mtxStore
    { c with second := r.1, shared := r.2.1, mtxStore := r.2.2 }

/-- An interleaving: the scheduler's choices, one statement each, from left to right. -/
def Race.run (c : Race) (schedule : List Bool) : Race :=
  schedule.foldl Race.step c

/-- Both listeners have decoded their message and are about to enter the critical section;
`mtxStore` is free. -/
def Race.init (shared : Shared) (port1 : Int) (msg1 : Message) (port2 : Int)
    (msg2 : Message) : Race :=
  { shared := shared, mtxStore := none,
    first := { port := port1, msg := msg1, pc := .lock },
    second := { port := port2, msg := msg2, pc := .lock } }

/-- The globals a listener standing at `l.pc` has made of the globals `base` it found when
it took `mtxStore`. -/
def Listener.expected (l : Listener) (base : Shared) : Shared :=
  match l.pc with
  | .lock => base
  | .check => base
  | .insert => base
  | .print_skipped => base
  | .print_received =>
    { base with messageStore := hash_map_insert base.messageStore l.msg.MessageId l.msg }
  | .push =>
    { base with
      messageStore := hash_map_insert base.messageStore l.msg.MessageId l.msg,
      output := base.output
        ++ [Output.received (receiver_number l.port) l.msg.MessageId l.msg.MessageData] }
  | .unlock => receiverThread_process l.port base l.msg
  | .done => receiverThread_process l.port base l.msg

/-- The branch a listener standing at `l.pc` is in is the branch its tests select on the
globals `base` it found when it took `mtxStore`. -/
def Listener.consistent (l : Listener) (base : Shared) : Prop :=
  match l.pc with
  | .insert => hash_map_contains base.messageStore l.msg.MessageId = 0
  | .print_received => hash_map_contains base.messageStore l.msg.MessageId = 0
  | .push => hash_map_contains base.messageStore l.msg.MessageId = 0 ∧ l.msg.MessageData = 10
  | .print_skipped => ¬ hash_map_contains base.messageStore l.msg.MessageId = 0
  | _ => True

/-- The listener stands between `mutex_lock` and `mutex_unlock`. -/
def Listener.holds (l : Listener) : Bool :=
  match l.pc with
  | .lock => false
  | .done => false
  | _ => true

/-- Listener `a` (number `ma`) goes first: either `b` still waits at `mutex_lock` while `a`
works on the initial globals `st0`, or `a` is through and `b` works on what `a` left. -/
def RaceLead (st0 : Shared) (a b : Listener) (ma mb : Bool) (shared : Shared)
    (mtxStore : Option Bool) : Prop :=
  (b.pc = .lock ∧ shared = a.expected st0 ∧ a.consistent st0 ∧
      mtxStore = if a.holds then some ma else none) ∨
    (a.pc = .done ∧ shared = b.expected (receiverThread_process a.port st0 a.msg) ∧
      b.consistent (receiverThread_process a.port st0 a.msg) ∧
      mtxStore = if b.holds then some mb else none)

/-- The invariant of a race that started from the globals `st0`: one of the two listeners
goes first. -/
def RaceInv (st0 : Shared) (c : Race) : Prop :=
  RaceLead st0 c.first c.second false true c.shared c.mtxStore ∨
    RaceLead st0 c.second c.first true false c.shared c.mtxStore

/-! ### `src/main.c`: shutdown of the dispatcher -/

/-- Where `transmitterThread` stands in its dispatch loop. -/
inductive DispatcherPC where
  /-- About to evaluate the loop test `!done || !queue_empty(transmitQueue)`. -/
  | test
  /-- About to call `mutex_lock(&mtxQueue)`. -/
  | lock
  /-- Holding `mtxQueue`, about to evaluate `queue_empty(transmitQueue)`. -/
  | check
  /-- Inside `cond_wait(&cv, &mtxQueue)`, not signalled. -/
  | wait
  /-- Signalled inside `cond_wait`: about to return from it, unlock and `continue`. -/
  | woken
  /-- About to call `queue_pop`, copy the message, unlock and submit the task. -/
  | pop
  /-- Past the loop, at `close(sock)`. -/
  | closed
  /-- The call `queue_pop` returned `NULL` and `*msg_ptr` was evaluated. -/
  | null_dereference
  deriving DecidableEq, Repr

/-- Where `main` stands after `sleep(10)`. -/
inductive MainPC where
  /-- About to execute `done = 1`. -/
  | set_done
  /-- About to call `cond_signal(&cv)`. -/
  | signal
  /-- In the calls of `thread_join`. -/
  | join
  deriving DecidableEq, Repr

/-- The dispatcher and `main` at shutdown, with the flag `done` and the state of the
dispatch loop.  No listener pushes any more. -/
structure Shutdown where
  done : Nat
  st : DispatchState
  dispatcher : DispatcherPC
  main : MainPC
  deriving DecidableEq, Repr

/-- One statement of the dispatcher (`who = false`) or of `main` (`who = true`).
`cond_signal` wakes the dispatcher when it sits in `cond_wait` and does nothing otherwise;
a dispatcher in `cond_wait` that is not signalled stays there (no spurious wake-up), and
`main` stays in `thread_join`. -/
def Shutdown.step (dup : Nat → Int) (c : Shutdown) (who : Bool) : Shutdown :=
  match who with
  | false =>
    match c.dispatcher with
    | .test =>
      if c.done ≠ 0 ∧ queue_empty c.st.transmitQueue = 1 then { c with dispatcher := .closed }
      else { c with dispatcher := .lock }
    | .lock => { c with dispatcher := .check }
    | .check =>
      if queue_empty c.st.transmitQueue = 1 then { c with dispatcher := .wait }
      else { c with dispatcher := .pop }
    | .wait => c
    | .woken => { c with dispatcher := .test }
    | .pop =>
      match queue_pop c.st.transmitQueue with
      | (none, _) => { c with dispatcher := .null_dereference }
      | (some msg, q) =>
        let task : SendTask := { sock := dup c.st.pops, msg := msg }
        { c with
          st := { transmitQueue := q, sendPool := pool_add_task c.st.sendPool task,
                  pops := c.st.pops + 1 },
          dispatcher := .test }
    | .closed => c
    | .null_dereference => c
  | true =>
    match c.main with
    | .set_done => { c with done := 1, main := .signal }
    | .signal =>
      { c with
        dispatcher := if c.dispatcher = .wait then .woken else c.dispatcher,
        main := .join }
    | .join => c

/-- An interleaving of the dispatcher and `main`: the scheduler's choices, one statement
each, from left to right. -/
def Shutdown.run (dup : Nat → Int) (c : Shutdown) (schedule : List Bool) : Shutdown :=
  schedule.foldl (Shutdown.step dup) c

/-! ## Theorems -/

/-! ### Wire codec -/

theorem bswap16_bytes (a b : Nat) (ha : a < 256) (hb : b < 256) :
    bswap16 (a + 256 * b) = b + 256 * a := by
  unfold bswap16; omega

theorem bswap16_bswap16 (x : Nat) (h : x < 2 ^ 16) : bswap16 (bswap16 x) = x := by
  have hx : x = x % 256 + 256 * (x / 256) := by omega
  rw [hx, bswap16_bytes _ _ (by omega) (by omega), bswap16_bytes _ _ (by omega) (by omega)]

theorem bswap16_lt (x : Nat) : bswap16 x < 2 ^ 16 := by
  unfold bswap16; omega

theorem bswap32_lt (x : Nat) : bswap32 x < 2 ^ 32 := by
  unfold bswap32; omega

theorem bswap32_bytes (a b c d : Nat) (ha : a < 256) (hb : b < 256) (hc : c < 256)
    (hd : d < 256) :
    bswap32 (a + 256 * b + 65536 * c + 16777216 * d)
      = d + 256 * c + 65536 * b + 16777216 * a := by
  unfold bswap32; omega

theorem bswap32_bswap32 (x : Nat) (h : x < 2 ^ 32) : bswap32 (bswap32 x) = x := by
  have hx : x = x % 256 + 256 * (x / 256 % 256) + 65536 * (x / 65536 % 256)
      + 16777216 * (x / 16777216) := by omega
  rw [hx, bswap32_bytes _ _ _ _ (by omega) (by omega) (by omega) (by omega),
    bswap32_bytes _ _ _ _ (by omega) (by omega) (by omega) (by omega)]

/-- On a little-endian host `htonll` exchanges the two 32-bit halves and reverses each. -/
theorem htonll_little (x : Nat) :
    htonll .little x = bswap32 (x % 2 ^ 32) * 2 ^ 32 + bswap32 (x / 2 ^ 32 % 2 ^ 32) := by
  have hm : x &&& 0xFFFFFFFF = x % 2 ^ 32 := Nat.and_pow_two_sub_one_eq_mod x 32
  have h1 := bswap32_lt (x % 2 ^ 32)
  have h2 := bswap32_lt (x / 2 ^ 32 % 2 ^ 32)
  simp only [htonll, htonl, hm, Nat.shiftRight_eq_div_pow, Nat.shiftLeft_eq, Nat.mod_mod]
  rw [Nat.mul_comm _ (2 ^ 32), ← Nat.mul_add_lt_is_or h2]
  omega

theorem htonll_lt (host : Endian) (x : Nat) (h : x < 2 ^ 64) : htonll host x < 2 ^ 64 := by
  cases host
  · rw [htonll_little]
    have h1 := bswap32_lt (x % 2 ^ 32)
    have h2 := bswap32_lt (x / 2 ^ 32 % 2 ^ 32)
    omega
  · exact h

theorem ntohll_htonll (host : Endian) (x : Nat) (h : x < 2 ^ 64) :
    ntohll host (htonll host x) = x := by
  cases host
  · unfold ntohll
    rw [htonll_little (htonll .little x), htonll_little x]
    have h1 := bswap32_lt (x % 2 ^ 32)
    have h2 := bswap32_lt (x / 2 ^ 32 % 2 ^ 32)
    have e1 : (bswap32 (x % 2 ^ 32) * 2 ^ 32 + bswap32 (x / 2 ^ 32 % 2 ^ 32)) % 2 ^ 32
        = bswap32 (x / 2 ^ 32 % 2 ^ 32) := by omega
    have e2 : (bswap32 (x % 2 ^ 32) * 2 ^ 32 + bswap32 (x / 2 ^ 32 % 2 ^ 32)) / 2 ^ 32 % 2 ^ 32
        = bswap32 (x % 2 ^ 32) := by omega
    rw [e1, e2, bswap32_bswap32 _ (by omega), bswap32_bswap32 _ (by omega)]
    omega
  · rfl

theorem ntohs_htons (host : Endian) (x : Nat) (h : x < 2 ^ 16) :
    ntohs host (htons host x) = x := by
  cases host
  · simp only [ntohs, htons]
    rw [Nat.mod_eq_of_lt h, Nat.mod_eq_of_lt (bswap16_lt x), bswap16_bswap16 x h]
  · simp only [ntohs, htons, Nat.mod_mod]
    exact Nat.mod_eq_of_lt h

/-- C1. Round trip of the wire codec: on a little-endian and on a big-endian host, a
`Message` whose fields fit their C types, encoded as `sendMessage` does and decoded as
`receiverThread` does, comes back equal in all four fields. -/
theorem receiverThread_decode_sendMessage_encode (host : Endian) (m : Message)
    (hm : m.InRange) :
    receiverThread_decode host (sendMessage_encode host m) = m := by
  obtain ⟨hs, _, hi, hd⟩ := hm
  cases m with
  | mk s t i d =>
    simp only [receiverThread_decode, sendMessage_encode]
    simp only [Message.mk.injEq, and_true, true_and]
    exact ⟨ntohs_htons host s hs, ntohll_htonll host i hi, ntohll_htonll host d hd⟩

/-- Witness for C1: the message `{24, 1, 3, 10}` on a little-endian host. -/
theorem receiverThread_decode_sendMessage_encode_witness :
    (Message.mk 24 1 3 10).InRange ∧
      receiverThread_decode .little (sendMessage_encode .little (Message.mk 24 1 3 10))
        = Message.mk 24 1 3 10 :=
  ⟨by decide, receiverThread_decode_sendMessage_encode .little (Message.mk 24 1 3 10) (by decide)⟩

/-! ### Deduplicating store -/

theorem getD_set_self {α : Type} (l : List α) (i : Nat) (a d : α) (h : i < l.length) :
    (l.set i a).getD i d = a := by
  simp [List.getD_eq_getElem?_getD, List.getElem?_set, h]

theorem getD_set_of_ne {α : Type} (l : List α) (i j : Nat) (a d : α) (h : i ≠ j) :
    (l.set i a).getD j d = l.getD j d := by
  simp [List.getD_eq_getElem?_getD, List.getElem?_set, h]

theorem getD_mem_of_lt {α : Type} (l : List α) (i : Nat) (d : α) (h : i < l.length) :
    l.getD i d ∈ l := by
  rw [List.getD_eq_getElem l d h]
  exact List.getElem_mem h

theorem map_range_getD {α : Type} (l : List α) (d : α) :
    (List.range l.length).map (fun i => l.getD i d) = l := by
  apply List.ext_getElem
  · simp
  · intro i h1 h2
    simp [List.getElem?_eq_getElem h2]

/-- Replacing slot `i` by a chain with one more node at its head adds that node to the
collection of all nodes. -/
theorem bucket_push_front_flatten (buckets : List (List CustomHashMapNode)) (i : Nat)
    (node : CustomHashMapNode) (h : i < buckets.length) :
    (bucket_push_front buckets i node).flatten.Perm (node :: buckets.flatten) := by
  induction buckets generalizing i with
  | nil => simp at h
  | cons b rest ih =>
    cases i with
    | zero => simp [bucket_push_front]
    | succ j =>
      have hj : j < rest.length := by simpa using h
      have := ih j hj
      simp only [bucket_push_front, List.set_cons_succ, List.getD_cons_succ,
        List.flatten_cons] at this ⊢
      exact (List.Perm.append_left b this).trans List.perm_middle

theorem SlotsOk_replicate (n : Nat) : SlotsOk n (List.replicate n []) := by
  refine ⟨by simp, ?_⟩
  intro i hi node hn
  rw [List.getD_eq_getElem _ _ (by simpa using hi)] at hn
  simp at hn

theorem SlotsOk_push (n : Nat) (hn : 0 < n) (buckets : List (List CustomHashMapNode))
    (node : CustomHashMapNode) (h : SlotsOk n buckets) :
    SlotsOk n (bucket_push_front buckets (hash_function node.key % n) node) := by
  obtain ⟨hl, hs⟩ := h
  have hlt : hash_function node.key % n < buckets.length := by
    rw [hl]; exact Nat.mod_lt _ hn
  refine ⟨by simp [bucket_push_front, hl], ?_⟩
  intro i hi x hx
  unfold bucket_push_front at hx
  by_cases hij : hash_function node.key % n = i
  · subst hij
    rw [getD_set_self _ _ _ _ hlt] at hx
    rcases List.mem_cons.mp hx with rfl | hx
    · rfl
    · exact hs _ hi x hx
  · rw [getD_set_of_ne _ _ _ _ _ hij] at hx
    exact hs i hi x hx

theorem rehash_chain_spec (n : Nat) (hn : 0 < n) (chain : List CustomHashMapNode)
    (nb : List (List CustomHashMapNode)) (h : SlotsOk n nb) :
    SlotsOk n (rehash_chain n nb chain) ∧
      (rehash_chain n nb chain).flatten.Perm (chain ++ nb.flatten) := by
  induction chain generalizing nb with
  | nil => exact ⟨h, List.Perm.refl _⟩
  | cons c rest ih =>
    have h1 := SlotsOk_push n hn nb c h
    have hlt : hash_function c.key % n < nb.length := by
      rw [h.1]; exact Nat.mod_lt _ hn
    obtain ⟨h2, h3⟩ := ih (bucket_push_front nb (hash_function c.key % n) c) h1
    refine ⟨h2, ?_⟩
    have h4 := bucket_push_front_flatten nb _ c hlt
    have h5 : (rehash_chain n nb (c :: rest)).flatten.Perm (rest ++ c :: nb.flatten) :=
      h3.trans (List.Perm.append_left rest h4)
    exact h5.trans List.perm_middle

theorem rehash_all_spec (n : Nat) (hn : 0 < n) (old : List (List CustomHashMapNode))
    (nb : List (List CustomHashMapNode)) (h : SlotsOk n nb) :
    SlotsOk n (old.foldl (rehash_chain n) nb) ∧
      (old.foldl (rehash_chain n) nb).flatten.Perm (old.flatten ++ nb.flatten) := by
  induction old generalizing nb with
  | nil => exact ⟨h, List.Perm.refl _⟩
  | cons chain rest ih =>
    obtain ⟨h1, h2⟩ := rehash_chain_spec n hn chain nb h
    obtain ⟨h3, h4⟩ := ih (rehash_chain n nb chain) h1
    refine ⟨h3, ?_⟩
    simp only [List.foldl_cons, List.flatten_cons, List.append_assoc]
    refine h4.trans ?_
    refine (List.Perm.append_left rest.flatten h2).trans ?_
    rw [← List.append_assoc, ← List.append_assoc]
    exact List.Perm.append_right _ List.perm_append_comm

theorem hash_map_resize_buckets (map : CustomHashMap)
    (hl : map.buckets.buckets.length = map.buckets.size) :
    (hash_map_resize map).buckets.buckets
      = map.buckets.buckets.foldl (rehash_chain (map.buckets.size * 2))
          (List.replicate (map.buckets.size * 2) []) := by
  unfold hash_map_resize
  simp only
  rw [← hl]
  rw [← List.foldl_map (fun i => map.buckets.buckets.getD i [])
    (rehash_chain (map.buckets.buckets.length * 2)), map_range_getD]

/-- What `hash_map_resize` does to a well-formed map. -/
theorem hash_map_resize_spec (map : CustomHashMap) (h : map.WellFormed) :
    (hash_map_resize map).WellFormed ∧
      (hash_map_resize map).entries.Perm map.entries ∧
      (hash_map_resize map).num_elements = map.num_elements ∧
      (hash_map_resize map).buckets.size = map.buckets.size * 2 := by
  obtain ⟨h0, hl, hs⟩ := h
  have hn : 0 < map.buckets.size * 2 := by omega
  obtain ⟨h1, h2⟩ := rehash_all_spec (map.buckets.size * 2) hn map.buckets.buckets
    (List.replicate (map.buckets.size * 2) []) (SlotsOk_replicate _)
  have hb := hash_map_resize_buckets map hl
  have hsz : (hash_map_resize map).buckets.size = map.buckets.size * 2 := rfl
  refine ⟨⟨by rw [hsz]; exact hn, ?_, ?_⟩, ?_, rfl, hsz⟩
  · rw [hb, hsz]; exact h1.1
  · rw [hb, hsz]; exact h1.2
  · unfold CustomHashMap.entries
    rw [hb]
    simpa using h2

theorem chain_contains_eq_one_iff (key : Nat) (chain : List CustomHashMapNode) :
    chain_contains key chain = 1 ↔ ∃ node ∈ chain, node.key = key := by
  induction chain with
  | nil => simp [chain_contains]
  | cons c rest ih =>
    unfold chain_contains
    by_cases hc : c.key = key
    · simp [hc]
    · simp [hc, ih]

theorem chain_contains_eq_zero_iff (key : Nat) (chain : List CustomHashMapNode) :
    chain_contains key chain = 0 ↔ ∀ node ∈ chain, node.key ≠ key := by
  induction chain with
  | nil => simp [chain_contains]
  | cons c rest ih =>
    unfold chain_contains
    by_cases hc : c.key = key
    · simp [hc]
    · simp [hc, ih]

theorem chain_update_eq_none_iff (key : Nat) (value : Message)
    (chain : List CustomHashMapNode) :
    chain_update key value chain = none ↔ ∀ node ∈ chain, node.key ≠ key := by
  induction chain with
  | nil => simp [chain_update]
  | cons c rest ih =>
    unfold chain_update
    by_cases hc : c.key = key
    · simp [hc]
    · simp [hc, ih]

/-- What the search loop of `hash_map_insert` does to a chain that holds the key: the keys
stay as they are, the first node under `key` now carries `value`, and the first node under
any other key is the one it was. -/
theorem chain_update_eq_some (key : Nat) (value : Message)
    (chain chain1 : List CustomHashMapNode) (h : chain_update key value chain = some chain1) :
    chain1.map CustomHashMapNode.key = chain.map CustomHashMapNode.key ∧
      (chain1.find? (fun node => decide (node.key = key))).map CustomHashMapNode.value
        = some value ∧
      ∀ k, k ≠ key →
        chain1.find? (fun node => decide (node.key = k))
          = chain.find? (fun node => decide (node.key = k)) := by
  induction chain generalizing chain1 with
  | nil => simp [chain_update] at h
  | cons c rest ih =>
    unfold chain_update at h
    by_cases hc : c.key = key
    · simp only [hc, if_true, Option.some.injEq] at h
      subst h
      refine ⟨by simp [hc], by simp, ?_⟩
      intro k hk
      have hk1 : ¬ key = k := fun e => hk e.symm
      have hk2 : ¬ c.key = k := by rw [hc]; exact hk1
      simp [List.find?_cons, hk1, hk2]
    · simp only [hc, if_false, Option.map_eq_some'] at h
      obtain ⟨r, hr, rfl⟩ := h
      obtain ⟨h1, h2, h3⟩ := ih r hr
      refine ⟨by simp [h1], ?_, ?_⟩
      · simpa [List.find?_cons, hc] using h2
      · intro k hk
        simp only [List.find?_cons]
        rw [h3 k hk]

theorem mem_keys_iff (map : CustomHashMap) (h : map.WellFormed) (key : Nat) :
    key ∈ map.keys ↔
      ∃ node ∈ map.buckets.buckets.getD (get_bucket_index map key) [], node.key = key := by
  obtain ⟨h0, hl, hs⟩ := h
  have hidx : get_bucket_index map key < map.buckets.buckets.length := by
    rw [hl]; exact Nat.mod_lt _ h0
  unfold CustomHashMap.keys CustomHashMap.entries
  simp only [List.mem_map, List.mem_flatten]
  constructor
  · rintro ⟨node, ⟨chain, hc, hn⟩, rfl⟩
    obtain ⟨i, hi, rfl⟩ := List.getElem_of_mem hc
    have hi2 : i < map.buckets.size := by rw [← hl]; exact hi
    have hn2 : node ∈ map.buckets.buckets.getD i [] := by
      rw [List.getD_eq_getElem _ _ hi]; exact hn
    have := hs i hi2 node hn2
    refine ⟨node, ?_, rfl⟩
    unfold get_bucket_index
    rw [this]; exact hn2
  · rintro ⟨node, hn, rfl⟩
    exact ⟨node, ⟨_, getD_mem_of_lt _ _ _ hidx, hn⟩, rfl⟩

theorem hash_map_contains_eq_one_iff (map : CustomHashMap) (h : map.WellFormed) (key : Nat) :
    hash_map_contains map key = 1 ↔ key ∈ map.keys := by
  rw [mem_keys_iff map h key]
  exact chain_contains_eq_one_iff _ _

theorem hash_map_contains_eq_zero_iff (map : CustomHashMap) (h : map.WellFormed) (key : Nat) :
    hash_map_contains map key = 0 ↔ key ∉ map.keys := by
  rw [mem_keys_iff map h key]
  unfold hash_map_contains
  simp only
  rw [chain_contains_eq_zero_iff]
  simp

theorem hash_map_create_wellFormed (n : Nat) (hn : 0 < n) : (hash_map_create n).WellFormed := by
  have h := SlotsOk_replicate n
  exact ⟨hn, h.1, h.2⟩

theorem hash_map_create_entries (n : Nat) : (hash_map_create n).entries = [] := by
  unfold CustomHashMap.entries hash_map_create
  induction n with
  | zero => rfl
  | succ k ih => simp [List.replicate_succ]

theorem map_set_of_eq {α β : Type} (f : α → β) (l : List α) (i : Nat) (a d : α)
    (h : f a = f (l.getD i d)) (hi : i < l.length) : (l.set i a).map f = l.map f := by
  induction l generalizing i with
  | nil => rfl
  | cons b rest ih =>
    cases i with
    | zero => simpa using h
    | succ j =>
      have hj : j < rest.length := by simpa using hi
      simp only [List.set_cons_succ, List.map_cons, List.cons.injEq, true_and]
      exact ih j (by simpa using h) hj

/-- The last block of `hash_map_insert` on a well-formed map: the new node joins the
nodes of the map. -/
theorem hash_map_insert_new_node_spec (map : CustomHashMap) (h : map.WellFormed)
    (key : Nat) (value : Message) :
    (hash_map_insert_new_node map (get_bucket_index map key) key value).WellFormed ∧
      (hash_map_insert_new_node map (get_bucket_index map key) key value).entries.Perm
        (⟨key, value⟩ :: map.entries) ∧
      (hash_map_insert_new_node map (get_bucket_index map key) key value).num_elements
        = map.num_elements + 1 := by
  obtain ⟨h0, hl, hs⟩ := h
  have hp := SlotsOk_push map.buckets.size h0 map.buckets.buckets ⟨key, value⟩ ⟨hl, hs⟩
  have hidx : get_bucket_index map key < map.buckets.buckets.length := by
    rw [hl]; exact Nat.mod_lt _ h0
  exact ⟨⟨h0, hp.1, hp.2⟩, bucket_push_front_flatten _ _ _ hidx, rfl⟩

/-- `hash_map_insert` with a key the map does not hold: one node is added, whether or not
the map is resized on the way. -/
theorem hash_map_insert_absent (map : CustomHashMap) (h : map.WellFormed) (key : Nat)
    (value : Message) (hk : key ∉ map.keys) :
    (hash_map_insert map key value).WellFormed ∧
      (hash_map_insert map key value).entries.Perm (⟨key, value⟩ :: map.entries) ∧
      (hash_map_insert map key value).num_elements = map.num_elements + 1 := by
  have hnone : chain_update key value
      (map.buckets.buckets.getD (get_bucket_index map key) []) = none := by
    rw [chain_update_eq_none_iff]
    intro node hn he
    exact hk ((mem_keys_iff map h key).mpr ⟨node, hn, he⟩)
  unfold hash_map_insert
  simp only [hnone]
  cases load_factor_exceeded map.num_elements map.buckets.size with
  | true =>
    obtain ⟨r1, r2, r3, _⟩ := hash_map_resize_spec map h
    obtain ⟨p1, p2, p3⟩ := hash_map_insert_new_node_spec (hash_map_resize map) r1 key value
    simp only [if_true]
    exact ⟨p1, p2.trans (List.Perm.cons _ r2), by rw [p3, r3]⟩
  | false =>
    simp only [Bool.false_eq_true, if_false]
    exact hash_map_insert_new_node_spec map h key value

/-- `hash_map_insert` with a key the map holds: the value under the key is overwritten,
nothing else changes. -/
theorem hash_map_insert_present (map : CustomHashMap) (h : map.WellFormed) (key : Nat)
    (value : Message) (hk : key ∈ map.keys) :
    (hash_map_insert map key value).WellFormed ∧
      (hash_map_insert map key value).keys = map.keys ∧
      (hash_map_insert map key value).num_elements = map.num_elements ∧
      (hash_map_insert map key value).buckets.size = map.buckets.size ∧
      (hash_map_insert map key value).stored key = some value ∧
      ∀ k, k ≠ key → (hash_map_insert map key value).stored k = map.stored k := by
  obtain ⟨node, hn, he⟩ := (mem_keys_iff map h key).mp hk
  obtain ⟨h0, hl, hs⟩ := h
  have hidx : get_bucket_index map key < map.buckets.buckets.length := by
    rw [hl]; exact Nat.mod_lt _ h0
  cases hcu : chain_update key value (map.buckets.buckets.getD (get_bucket_index map key) []) with
  | none =>
    rw [chain_update_eq_none_iff] at hcu
    exact absurd he (hcu node hn)
  | some chain1 =>
    obtain ⟨c1, c2, c3⟩ := chain_update_eq_some key value _ chain1 hcu
    have hins : hash_map_insert map key value
        = { map with buckets := { map.buckets with
              buckets := map.buckets.buckets.set (get_bucket_index map key) chain1 } } := by
      unfold hash_map_insert
      simp only [hcu]
    rw [hins]
    refine ⟨⟨h0, by simpa using hl, ?_⟩, ?_, rfl, rfl, ?_, ?_⟩
    · intro i hi x hx
      simp only at hx hi ⊢
      by_cases hij : get_bucket_index map key = i
      · subst hij
        rw [getD_set_self _ _ _ _ hidx] at hx
        have hx2 : x.key ∈ chain1.map CustomHashMapNode.key := List.mem_map_of_mem _ hx
        rw [c1] at hx2
        obtain ⟨y, hy, hyx⟩ := List.mem_map.mp hx2
        rw [← hyx]
        exact hs _ hi y hy
      · rw [getD_set_of_ne _ _ _ _ _ hij] at hx
        exact hs i hi x hx
    · unfold CustomHashMap.keys CustomHashMap.entries
      simp only [List.map_flatten]
      rw [map_set_of_eq (List.map CustomHashMapNode.key) _ _ chain1 [] c1 hidx]
    · unfold CustomHashMap.stored get_bucket_index
      simp only
      have := getD_set_self map.buckets.buckets _ chain1 [] hidx
      unfold get_bucket_index at this
      rw [this]
      exact c2
    · intro k hkk
      unfold CustomHashMap.stored get_bucket_index
      simp only
      by_cases hij : hash_function key % map.buckets.size = hash_function k % map.buckets.size
      · have := getD_set_self map.buckets.buckets _ chain1 [] hidx
        unfold get_bucket_index at this
        rw [← hij, this, c3 k hkk]
        rfl
      · have := getD_set_of_ne map.buckets.buckets _ _ chain1 [] hij
        rw [this]

/-- `hash_map_insert` keeps a map well formed and adds exactly its key to the keys. -/
theorem hash_map_insert_spec (map : CustomHashMap) (h : map.WellFormed) (key : Nat)
    (value : Message) :
    (hash_map_insert map key value).WellFormed ∧
      ∀ k, k ∈ (hash_map_insert map key value).keys ↔ k = key ∨ k ∈ map.keys := by
  by_cases hk : key ∈ map.keys
  · obtain ⟨h1, h2, _⟩ := hash_map_insert_present map h key value hk
    refine ⟨h1, ?_⟩
    intro k
    rw [h2]
    constructor
    · exact fun hm => Or.inr hm
    · rintro (rfl | hm)
      · exact hk
      · exact hm
  · obtain ⟨h1, h2, _⟩ := hash_map_insert_absent map h key value hk
    refine ⟨h1, ?_⟩
    intro k
    unfold CustomHashMap.keys
    rw [(h2.map CustomHashMapNode.key).mem_iff]
    simp

theorem stored_eq_none_iff (map : CustomHashMap) (h : map.WellFormed) (key : Nat) :
    map.stored key = none ↔ key ∉ map.keys := by
  rw [mem_keys_iff map h key]
  unfold CustomHashMap.stored
  simp [List.find?_eq_none]

theorem stored_eq_some_iff (map : CustomHashMap) (h : map.WellFormed)
    (hd : map.keys.Nodup) (key : Nat) (value : Message) :
    map.stored key = some value ↔ (⟨key, value⟩ : CustomHashMapNode) ∈ map.entries := by
  have hidx : get_bucket_index map key < map.buckets.buckets.length := by
    rw [h.2.1]; exact Nat.mod_lt _ h.1
  have hsub : ∀ node ∈ map.buckets.buckets.getD (get_bucket_index map key) [],
      node ∈ map.entries := by
    intro node hn
    unfold CustomHashMap.entries
    exact List.mem_flatten.mpr ⟨_, getD_mem_of_lt _ _ _ hidx, hn⟩
  unfold CustomHashMap.stored
  constructor
  · intro hs
    obtain ⟨node, hf, hv⟩ := Option.map_eq_some'.mp hs
    have hm := List.mem_of_find?_eq_some hf
    have hk : node.key = key := by simpa using List.find?_some hf
    have : node = ⟨key, value⟩ := by
      cases node; simp only at hk hv; simp [hk, hv]
    rw [← this]
    exact hsub node hm
  · intro hm
    have hk : key ∈ map.keys := List.mem_map.mpr ⟨_, hm, rfl⟩
    obtain ⟨node, hn, he⟩ := (mem_keys_iff map h key).mp hk
    cases hf : (map.buckets.buckets.getD (get_bucket_index map key) []).find?
        (fun node => decide (node.key = key)) with
    | none =>
      rw [List.find?_eq_none] at hf
      exact absurd (by simpa using he) (hf node hn)
    | some found =>
      have hfm := hsub found (List.mem_of_find?_eq_some hf)
      have hfk : found.key = key := by simpa using List.find?_some hf
      have := List.inj_on_of_nodup_map hd hfm hm hfk
      simp [this]

/-- After `hash_map_insert` with a key the map does not hold, a walk finds the new value
under the key and what it found before under every other key. -/
theorem hash_map_insert_absent_stored (map : CustomHashMap) (h : map.WellFormed)
    (hd : map.keys.Nodup) (key : Nat) (value : Message) (hk : key ∉ map.keys) :
    (hash_map_insert map key value).keys.Nodup ∧
      (hash_map_insert map key value).keys.length = map.keys.length + 1 ∧
      (hash_map_insert map key value).stored key = some value ∧
      ∀ k, k ≠ key → (hash_map_insert map key value).stored k = map.stored k := by
  obtain ⟨w, hp, _⟩ := hash_map_insert_absent map h key value hk
  have hpk : (hash_map_insert map key value).keys.Perm (key :: map.keys) :=
    hp.map CustomHashMapNode.key
  have hd2 : (hash_map_insert map key value).keys.Nodup :=
    hpk.nodup_iff.mpr (List.nodup_cons.mpr ⟨hk, hd⟩)
  refine ⟨hd2, by simpa using hpk.length_eq, ?_, ?_⟩
  · rw [stored_eq_some_iff _ w hd2]
    exact hp.mem_iff.mpr (List.mem_cons_self _ _)
  · intro k hkk
    cases hs : map.stored k with
    | none =>
      rw [stored_eq_none_iff map h] at hs
      rw [stored_eq_none_iff _ w, hpk.mem_iff]
      simp [hkk, hs]
    | some v =>
      rw [stored_eq_some_iff map h hd] at hs
      rw [stored_eq_some_iff _ w hd2]
      exact hp.mem_iff.mpr (List.mem_cons_of_mem _ hs)

theorem queue_push_nodes {α : Type} (q : CustomQueue α) (value : α) :
    (queue_push q value).nodes = q.nodes ++ [value] := by
  unfold queue_push
  cases q.nodes <;> rfl

theorem first_trigger_arrivals_append (msgs : List Message) (m : Message) :
    first_trigger_arrivals (msgs ++ [m])
      = first_trigger_arrivals msgs ++
          (if m.MessageData = 10 ∧ m.MessageId ∉ msgs.map Message.MessageId then [m]
            else []) := by
  unfold first_trigger_arrivals
  rw [List.enum_append, List.filter_append, List.map_append, List.enumFrom_singleton]
  congr 1
  · congr 1
    apply List.filter_congr
    intro im him
    have hlt : im.1 ≤ msgs.length := Nat.le_of_lt (List.fst_lt_of_mem_enum him)
    rw [List.take_append_of_le_length hlt]
  · simp only [List.filter_cons, List.filter_nil, List.take_left]
    by_cases hc : m.MessageData = 10 ∧ m.MessageId ∉ msgs.map Message.MessageId
    · rw [if_pos hc]; simp [hc]
    · rw [if_neg hc]
      simp only [List.map_eq_nil_iff, ite_eq_right_iff, List.cons_ne_nil, imp_false]
      simpa using hc

theorem RunInv_init (n : Nat) (hn : 0 < n) (output : List Output) :
    RunInv { messageStore := hash_map_create n, transmitQueue := queue_create,
             output := output } [] := by
  have hk : (hash_map_create n).keys = [] := by
    unfold CustomHashMap.keys; rw [hash_map_create_entries]; rfl
  have hw := hash_map_create_wellFormed n hn
  refine ⟨hw, by simp [hk], by rw [hk]; rfl, by simp [hk], ?_, rfl⟩
  intro id
  simp only [List.find?_nil]
  rw [stored_eq_none_iff _ hw, hk]
  simp

theorem RunInv_step (port : Int) (st : Shared) (msgs : List Message) (m : Message)
    (h : RunInv st msgs) : RunInv (receiverThread_process port st m) (msgs ++ [m]) := by
  obtain ⟨hw, hd, hne, hkeys, hst, hq⟩ := h
  unfold receiverThread_process
  by_cases hc : hash_map_contains st.messageStore m.MessageId = 0
  · have hk : m.MessageId ∉ st.messageStore.keys :=
      (hash_map_contains_eq_zero_iff _ hw _).mp hc
    have hk2 : m.MessageId ∉ msgs.map Message.MessageId := fun hm => hk ((hkeys _).mpr hm)
    obtain ⟨w2, _, hn2⟩ := hash_map_insert_absent _ hw m.MessageId m hk
    obtain ⟨d2, hl2, s1, s2⟩ := hash_map_insert_absent_stored _ hw hd m.MessageId m hk
    obtain ⟨_, hkeys2⟩ := hash_map_insert_spec _ hw m.MessageId m
    have hfind : ∀ id, (hash_map_insert st.messageStore m.MessageId m).stored id
        = (msgs ++ [m]).find? (fun x => decide (x.MessageId = id)) := by
      intro id
      rw [List.find?_append]
      by_cases hid : id = m.MessageId
      · subst hid
        have : msgs.find? (fun x => decide (x.MessageId = m.MessageId)) = none := by
          rw [List.find?_eq_none]
          intro x hx hxe
          exact hk2 (List.mem_map.mpr ⟨x, hx, by simpa using hxe⟩)
        rw [s1, this]
        simp
      · rw [s2 id hid, hst id]
        have hne2 : ¬ m.MessageId = id := fun e => hid e.symm
        simp [List.find?_cons, hne2]
    have hkk : ∀ k, k ∈ (hash_map_insert st.messageStore m.MessageId m).keys
        ↔ k ∈ (msgs ++ [m]).map Message.MessageId := by
      intro k
      rw [hkeys2 k, hkeys k]
      simp only [List.map_append, List.map_cons, List.map_nil, List.mem_append,
        List.mem_singleton]
      exact Or.comm
    simp only [hc, if_true]
    by_cases ht : m.MessageData = 10
    · simp only [ht, if_true]
      refine ⟨w2, d2, by rw [hn2, hl2, hne], hkk, hfind, ?_⟩
      simp only
      rw [queue_push_nodes, hq, first_trigger_arrivals_append]
      simp [ht, hk2]
    · simp only [ht, if_false]
      refine ⟨w2, d2, by rw [hn2, hl2, hne], hkk, hfind, ?_⟩
      simp only
      rw [hq, first_trigger_arrivals_append]
      simp [ht]
  · have hc1 : hash_map_contains st.messageStore m.MessageId = 1 := by
      unfold hash_map_contains at hc ⊢
      simp only at hc ⊢
      generalize st.messageStore.buckets.buckets.getD _ [] = chain at hc ⊢
      induction chain with
      | nil => simp [chain_contains] at hc
      | cons c rest ih =>
        unfold chain_contains at hc ⊢
        by_cases hck : c.key = m.MessageId
        · simp [hck]
        · simp only [hck, if_false] at hc ⊢
          exact ih hc
    have hk : m.MessageId ∈ st.messageStore.keys :=
      (hash_map_contains_eq_one_iff _ hw _).mp hc1
    have hk2 : m.MessageId ∈ msgs.map Message.MessageId := (hkeys _).mp hk
    simp only [hc, if_false]
    refine ⟨hw, hd, hne, ?_, ?_, ?_⟩
    · intro k
      rw [hkeys k]
      simp only [List.map_append, List.map_cons, List.map_nil, List.mem_append,
        List.mem_singleton]
      constructor
      · exact fun hm => Or.inl hm
      · rintro (hm | rfl)
        · exact hm
        · exact hk2
    · intro id
      simp only
      rw [hst id, List.find?_append]
      by_cases hid : m.MessageId = id
      · subst hid
        obtain ⟨x, hx, hxe⟩ := List.mem_map.mp hk2
        cases hf : msgs.find? (fun y => decide (y.MessageId = m.MessageId)) with
        | none =>
          rw [List.find?_eq_none] at hf
          exact absurd (by simpa using hxe) (hf x hx)
        | some y => simp
      · simp [List.find?_cons, hid]
    · simp only
      rw [hq, first_trigger_arrivals_append]
      simp [hk2]

theorem RunInv_run (st : Shared) (msgs : List Message) (arrivals : List (Int × Message))
    (h : RunInv st msgs) :
    RunInv (receiverThread_run st arrivals) (msgs ++ arrivals.map Prod.snd) := by
  induction arrivals generalizing st msgs with
  | nil => simpa [receiverThread_run] using h
  | cons a rest ih =>
    have h1 := RunInv_step a.1 st msgs a.2 h
    have h2 := ih _ _ h1
    simpa [receiverThread_run] using h2

theorem first_trigger_arrivals_props (msgs : List Message) :
    (first_trigger_arrivals msgs).Sublist msgs ∧
      ((first_trigger_arrivals msgs).map Message.MessageId).Nodup ∧
      ∀ m ∈ first_trigger_arrivals msgs, m.MessageData = 10 := by
  induction msgs using List.reverseRecOn with
  | nil => simp [first_trigger_arrivals]
  | append_singleton msgs m ih =>
    obtain ⟨h1, h2, h3⟩ := ih
    rw [first_trigger_arrivals_append]
    by_cases hc : m.MessageData = 10 ∧ m.MessageId ∉ msgs.map Message.MessageId
    · rw [if_pos hc]
      refine ⟨List.Sublist.append h1 (List.Sublist.refl _), ?_, ?_⟩
      · rw [List.map_append, List.nodup_append]
        refine ⟨h2, by simp, ?_⟩
        intro a ha hb
        have hb2 : a = m.MessageId := by simpa using hb
        subst hb2
        exact hc.2 ((h1.map Message.MessageId).subset ha)
      · intro x hx
        rcases List.mem_append.mp hx with hx | hx
        · exact h3 x hx
        · have : x = m := by simpa using hx
          rw [this]; exact hc.1
    · rw [if_neg hc, List.append_nil]
      exact ⟨h1.trans (List.sublist_append_left _ _), h2, h3⟩

theorem hash_map_insert_all_spec (map : CustomHashMap) (h : map.WellFormed)
    (inserts : List (Nat × Message)) :
    (hash_map_insert_all map inserts).WellFormed ∧
      ∀ k, k ∈ (hash_map_insert_all map inserts).keys
        ↔ k ∈ inserts.map Prod.fst ∨ k ∈ map.keys := by
  induction inserts generalizing map with
  | nil => exact ⟨h, by simp [hash_map_insert_all]⟩
  | cons kv rest ih =>
    obtain ⟨h1, h2⟩ := hash_map_insert_spec map h kv.1 kv.2
    obtain ⟨h3, h4⟩ := ih (hash_map_insert map kv.1 kv.2) h1
    refine ⟨h3, ?_⟩
    intro k
    have := h4 k
    unfold hash_map_insert_all at this ⊢
    rw [List.foldl_cons, this, h2 k]
    simp only [List.map_cons, List.mem_cons]
    tauto

/-! ### Claims about the deduplicating store and the listener -/

/-- C2. After any sequence of arrivals has gone through the listeners' check-then-insert
step, starting from a store made by `hash_map_create` with at least one bucket,
`hash_map_size` is the number of distinct `MessageId` values of the sequence; and the ten
messages of the test sender, whose ids run 0,1,2,3,4,0,1,2,3,4, leave a store of size 5. -/
theorem hash_map_size_receiverThread_run (n : Nat) (hn : 0 < n)
    (arrivals : List (Int × Message)) :
    hash_map_size (receiverThread_run
        { messageStore := hash_map_create n, transmitQueue := queue_create, output := [] }
        arrivals).messageStore
      = (arrivals.map (fun a => a.2.MessageId)).toFinset.card ∧
    udp_sender_messages.map Message.MessageId = [0, 1, 2, 3, 4, 0, 1, 2, 3, 4] ∧
    hash_map_size (receiverThread_run main_init
        (udp_sender_messages.map (fun m => ((5000 : Int), m)))).messageStore = 5 := by
  have key : ∀ (k : Nat) (_ : 0 < k) (arr : List (Int × Message)),
      hash_map_size (receiverThread_run
        { messageStore := hash_map_create k, transmitQueue := queue_create, output := [] }
        arr).messageStore = (arr.map (fun a => a.2.MessageId)).toFinset.card := by
    intro k hk arr
    obtain ⟨_, hd, hne, hkeys, _, _⟩ := RunInv_run _ [] arr (RunInv_init k hk [])
    unfold hash_map_size
    rw [hne, ← List.toFinset_card_of_nodup hd]
    congr 1
    ext x
    simp only [List.mem_toFinset]
    rw [hkeys x]
    simp
  refine ⟨key n hn arrivals, by decide, ?_⟩
  have := key 16 (by decide) (udp_sender_messages.map (fun m => ((5000 : Int), m)))
  unfold main_init
  rw [this]
  decide

/-- Witness for C2: the store of `main`, sixteen buckets, and two arrivals with one id. -/
theorem hash_map_size_receiverThread_run_witness :
    (0 : Nat) < 16 ∧ hash_map_size (receiverThread_run
        { messageStore := hash_map_create 16, transmitQueue := queue_create, output := [] }
        [(5000, Message.mk 24 1 3 10), (5001, Message.mk 24 1 3 10)]).messageStore
      = ([((5000 : Int), Message.mk 24 1 3 10), (5001, Message.mk 24 1 3 10)].map
          (fun a => a.2.MessageId)).toFinset.card :=
  ⟨by decide, (hash_map_size_receiverThread_run 16 (by decide)
    [(5000, Message.mk 24 1 3 10), (5001, Message.mk 24 1 3 10)]).1⟩

/-- C3. After any sequence of arrivals has gone through the listeners' step, starting from
an empty store and an empty queue and with no pop in between, the handoff queue holds, in
arrival order, exactly the messages whose `MessageData` is 10 and whose `MessageId` had
not arrived before; those are the messages the step found absent from the store
(`hash_map_contains` returned 0) with `MessageData` 10.  No `MessageId` occurs twice in
the queue. -/
theorem transmitQueue_receiverThread_run (n : Nat) (hn : 0 < n)
    (arrivals : List (Int × Message)) :
    (receiverThread_run
        { messageStore := hash_map_create n, transmitQueue := queue_create, output := [] }
        arrivals).transmitQueue.nodes
      = first_trigger_arrivals (arrivals.map Prod.snd) ∧
    ((receiverThread_run
        { messageStore := hash_map_create n, transmitQueue := queue_create, output := [] }
        arrivals).transmitQueue.nodes.map Message.MessageId).Nodup ∧
    (∀ (earlier : List (Int × Message)) (m : Message),
      hash_map_contains (receiverThread_run
          { messageStore := hash_map_create n, transmitQueue := queue_create, output := [] }
          earlier).messageStore m.MessageId = 0
        ↔ m.MessageId ∉ earlier.map (fun a => a.2.MessageId)) := by
  obtain ⟨_, _, _, _, _, hq⟩ := RunInv_run _ [] arrivals (RunInv_init n hn [])
  simp only [List.nil_append] at hq
  refine ⟨hq, ?_, ?_⟩
  · rw [hq]
    exact (first_trigger_arrivals_props _).2.1
  · intro earlier m
    obtain ⟨hw, _, _, hkeys, _, _⟩ := RunInv_run _ [] earlier (RunInv_init n hn [])
    rw [hash_map_contains_eq_zero_iff _ hw, hkeys]
    simp

/-- Witness for C3: the store of `main` and the ten messages of the test sender. -/
theorem transmitQueue_receiverThread_run_witness :
    (0 : Nat) < 16 ∧ (receiverThread_run
        { messageStore := hash_map_create 16, transmitQueue := queue_create, output := [] }
        (udp_sender_messages.map (fun m => ((5000 : Int), m)))).transmitQueue.nodes
      = first_trigger_arrivals
          ((udp_sender_messages.map (fun m => ((5000 : Int), m))).map Prod.snd) :=
  ⟨by decide, (transmitQueue_receiverThread_run 16 (by decide)
    (udp_sender_messages.map (fun m => ((5000 : Int), m)))).1⟩

/-- C4. After any sequence of calls of `hash_map_insert` on a map made by `hash_map_create`
with at least one bucket, `hash_map_contains` returns 1 for the keys that were inserted and
0 for every other key, whatever resizes happened on the way. -/
theorem hash_map_contains_hash_map_insert_all (n : Nat) (hn : 0 < n)
    (inserts : List (Nat × Message)) (k : Nat) :
    hash_map_contains (hash_map_insert_all (hash_map_create n) inserts) k
      = if k ∈ inserts.map Prod.fst then 1 else 0 := by
  obtain ⟨hw, hk⟩ := hash_map_insert_all_spec _ (hash_map_create_wellFormed n hn) inserts
  have hkeys : (hash_map_create n).keys = [] := by
    unfold CustomHashMap.keys; rw [hash_map_create_entries]; rfl
  by_cases hm : k ∈ inserts.map Prod.fst
  · rw [if_pos hm, hash_map_contains_eq_one_iff _ hw, hk]
    exact Or.inl hm
  · rw [if_neg hm, hash_map_contains_eq_zero_iff _ hw, hk, hkeys]
    simp [hm]

/-- Witness for C4: one bucket and three inserts, so that two resizes happen. -/
theorem hash_map_contains_hash_map_insert_all_witness :
    (0 : Nat) < 1 ∧ hash_map_contains (hash_map_insert_all (hash_map_create 1)
        [(7, Message.mk 24 1 7 10), (2, Message.mk 24 1 2 0), (7, Message.mk 24 1 7 1)]) 2
      = if 2 ∈ [((7 : Nat), Message.mk 24 1 7 10), (2, Message.mk 24 1 2 0),
          (7, Message.mk 24 1 7 1)].map Prod.fst then 1 else 0 :=
  ⟨by decide, hash_map_contains_hash_map_insert_all 1 (by decide)
    [(7, Message.mk 24 1 7 10), (2, Message.mk 24 1 2 0), (7, Message.mk 24 1 7 1)] 2⟩

theorem chain_update_filter (key : Nat) (value : Message)
    (chain chain1 : List CustomHashMapNode) (h : chain_update key value chain = some chain1) :
    chain1.filter (fun node => decide (node.key ≠ key))
      = chain.filter (fun node => decide (node.key ≠ key)) := by
  induction chain generalizing chain1 with
  | nil => simp [chain_update] at h
  | cons c rest ih =>
    unfold chain_update at h
    by_cases hc : c.key = key
    · simp only [hc, if_true, Option.some.injEq] at h
      subst h
      simp [List.filter_cons, hc]
    · simp only [hc, if_false, Option.map_eq_some'] at h
      obtain ⟨r, hr, rfl⟩ := h
      have hcd : decide (c.key ≠ key) = true := by simpa using hc
      rw [List.filter_cons, List.filter_cons, hcd, ih r hr]

theorem hash_map_insert_present_entries (map : CustomHashMap) (h : map.WellFormed)
    (key : Nat) (value : Message) (hk : key ∈ map.keys) :
    (hash_map_insert map key value).entries.filter (fun node => decide (node.key ≠ key))
      = map.entries.filter (fun node => decide (node.key ≠ key)) := by
  obtain ⟨node, hn, he⟩ := (mem_keys_iff map h key).mp hk
  have hidx : get_bucket_index map key < map.buckets.buckets.length := by
    rw [h.2.1]; exact Nat.mod_lt _ h.1
  cases hcu : chain_update key value (map.buckets.buckets.getD (get_bucket_index map key) []) with
  | none =>
    rw [chain_update_eq_none_iff] at hcu
    exact absurd he (hcu node hn)
  | some chain1 =>
    have hf := chain_update_filter key value _ chain1 hcu
    have hins : hash_map_insert map key value
        = { map with buckets := { map.buckets with
              buckets := map.buckets.buckets.set (get_bucket_index map key) chain1 } } := by
      unfold hash_map_insert
      simp only [hcu]
    rw [hins]
    unfold CustomHashMap.entries
    simp only [List.filter_flatten]
    rw [map_set_of_eq (List.filter (fun node => decide (node.key ≠ key))) _ _ chain1 [] hf hidx]

theorem hash_map_contains_eq_ite (map : CustomHashMap) (h : map.WellFormed) (key : Nat) :
    hash_map_contains map key = if key ∈ map.keys then 1 else 0 := by
  by_cases hk : key ∈ map.keys
  · rw [if_pos hk]; exact (hash_map_contains_eq_one_iff map h key).mpr hk
  · rw [if_neg hk]; exact (hash_map_contains_eq_zero_iff map h key).mpr hk

/-- C5, as the code has it.  `hash_map_insert` with a key the store already holds
overwrites the value stored under that key with the new message; the element count, the
keys, the entries under every other key and what a lookup of any other key finds are
unchanged. -/
theorem hash_map_insert_present_overwrites (map : CustomHashMap) (h : map.WellFormed)
    (key : Nat) (value : Message) (hk : key ∈ map.keys) :
    (hash_map_insert map key value).stored key = some value ∧
      hash_map_size (hash_map_insert map key value) = hash_map_size map ∧
      (hash_map_insert map key value).keys = map.keys ∧
      (hash_map_insert map key value).entries.filter (fun node => decide (node.key ≠ key))
        = map.entries.filter (fun node => decide (node.key ≠ key)) ∧
      ∀ k, k ≠ key → (hash_map_insert map key value).stored k = map.stored k := by
  obtain ⟨_, h2, h3, _, h5, h6⟩ := hash_map_insert_present map h key value hk
  exact ⟨h5, h3, h2, hash_map_insert_present_entries map h key value hk, h6⟩

/-- Witness for C5: the store that holds id 3, and a second message with id 3. -/
theorem hash_map_insert_present_overwrites_witness :
    (hash_map_insert (hash_map_create 16) 3 (Message.mk 24 1 3 10)).WellFormed ∧
      3 ∈ (hash_map_insert (hash_map_create 16) 3 (Message.mk 24 1 3 10)).keys ∧
      (hash_map_insert (hash_map_insert (hash_map_create 16) 3 (Message.mk 24 1 3 10)) 3
        (Message.mk 24 1 3 7)).stored 3 = some (Message.mk 24 1 3 7) :=
  ⟨by decide, by decide,
    (hash_map_insert_present_overwrites
      (hash_map_insert (hash_map_create 16) 3 (Message.mk 24 1 3 10)) (by decide) 3
      (Message.mk 24 1 3 7) (by decide)).1⟩

/-- Counterexample to C5 as stated: the store holds `{24, 1, 3, 10}` under key 3; after
`hash_map_insert` with key 3 and the message `{24, 1, 3, 7}` it holds `{24, 1, 3, 7}`
under key 3, so the stored value changed. -/
theorem hash_map_insert_present_changes_value :
    3 ∈ (hash_map_insert (hash_map_create 16) 3 (Message.mk 24 1 3 10)).keys ∧
      (hash_map_insert (hash_map_create 16) 3 (Message.mk 24 1 3 10)).stored 3
        = some (Message.mk 24 1 3 10) ∧
      (hash_map_insert (hash_map_insert (hash_map_create 16) 3 (Message.mk 24 1 3 10)) 3
        (Message.mk 24 1 3 7)).stored 3 = some (Message.mk 24 1 3 7) ∧
      ¬ ((hash_map_insert (hash_map_insert (hash_map_create 16) 3 (Message.mk 24 1 3 10)) 3
        (Message.mk 24 1 3 7)).stored 3
          = (hash_map_insert (hash_map_create 16) 3 (Message.mk 24 1 3 10)).stored 3) := by
  decide

/-- C6. On a store with at least one bucket whose nodes sit in bucket `key % size`,
`hash_map_resize` keeps the collection of nodes (each node as often as before, none new),
keeps `num_elements`, doubles the bucket count, leaves every node in the bucket
`key % size` of the new array, and `hash_map_contains` answers as before for every key. -/
theorem hash_map_resize_preserves (map : CustomHashMap) (h : map.WellFormed) :
    (hash_map_resize map).entries.Perm map.entries ∧
      (∀ node, (hash_map_resize map).entries.count node = map.entries.count node) ∧
      (hash_map_resize map).num_elements = map.num_elements ∧
      (hash_map_resize map).buckets.size = map.buckets.size * 2 ∧
      (hash_map_resize map).WellFormed ∧
      ∀ k, hash_map_contains (hash_map_resize map) k = hash_map_contains map k := by
  obtain ⟨h1, h2, h3, h4⟩ := hash_map_resize_spec map h
  refine ⟨h2, fun node => h2.count_eq node, h3, h4, h1, ?_⟩
  intro k
  rw [hash_map_contains_eq_ite _ h1, hash_map_contains_eq_ite _ h]
  have : k ∈ (hash_map_resize map).keys ↔ k ∈ map.keys :=
    (h2.map CustomHashMapNode.key).mem_iff
  simp only [this]

/-- Witness for C6: a store of two buckets holding the keys 1 and 3 in one chain. -/
theorem hash_map_resize_preserves_witness :
    (CustomHashMap.mk ⟨[[], [⟨3, Message.mk 24 1 3 10⟩, ⟨1, Message.mk 24 1 1 0⟩]], 2⟩
        2).WellFormed ∧
      (hash_map_resize (CustomHashMap.mk
        ⟨[[], [⟨3, Message.mk 24 1 3 10⟩, ⟨1, Message.mk 24 1 1 0⟩]], 2⟩ 2)).entries.Perm
        (CustomHashMap.mk ⟨[[], [⟨3, Message.mk 24 1 3 10⟩, ⟨1, Message.mk 24 1 1 0⟩]], 2⟩
          2).entries :=
  ⟨by decide,
    (hash_map_resize_preserves (CustomHashMap.mk
      ⟨[[], [⟨3, Message.mk 24 1 3 10⟩, ⟨1, Message.mk 24 1 1 0⟩]], 2⟩ 2) (by decide)).1⟩

/-- C8. When the `MessageId` of a decoded message is already in the store, the listener's
step leaves the store and the handoff queue exactly as they were, whatever the
`MessageData`, and only writes the line "skipped duplicate".  Consequently, after any
sequence of arrivals from the initial state, a lookup of an id in the store finds the
first message of the sequence that carried that id. -/
theorem receiverThread_process_duplicate (port : Int) (st : Shared) (m : Message)
    (hw : st.messageStore.WellFormed) (hk : m.MessageId ∈ st.messageStore.keys)
    (n : Nat) (hn : 0 < n) (arrivals : List (Int × Message)) (id : Nat) :
    (receiverThread_process port st m).messageStore = st.messageStore ∧
      (receiverThread_process port st m).transmitQueue = st.transmitQueue ∧
      (receiverThread_process port st m).output
        = st.output ++ [Output.skipped_duplicate (receiver_number port) m.MessageId] ∧
      (receiverThread_run
          { messageStore := hash_map_create n, transmitQueue := queue_create, output := [] }
          arrivals).messageStore.stored id
        = (arrivals.map Prod.snd).find? (fun x => decide (x.MessageId = id)) := by
  have hc : hash_map_contains st.messageStore m.MessageId = 1 :=
    (hash_map_contains_eq_one_iff _ hw _).mpr hk
  have hstep : receiverThread_process port st m
      = { st with output :=
            st.output ++ [Output.skipped_duplicate (receiver_number port) m.MessageId] } := by
    unfold receiverThread_process
    rw [if_neg (by rw [hc]; decide)]
  obtain ⟨_, _, _, _, hst, _⟩ := RunInv_run _ [] arrivals (RunInv_init n hn [])
  rw [hstep]
  exact ⟨rfl, rfl, rfl, by simpa using hst id⟩

/-- Witness for C8: the store holds id 3; a second message with id 3 and the trigger value
arrives on the other port. -/
theorem receiverThread_process_duplicate_witness :
    (receiverThread_process 5000 main_init (Message.mk 24 1 3 10)).messageStore.WellFormed ∧
      3 ∈ (receiverThread_process 5000 main_init (Message.mk 24 1 3 10)).messageStore.keys ∧
      (0 : Nat) < 16 ∧
      (receiverThread_process 5001
          (receiverThread_process 5000 main_init (Message.mk 24 1 3 10))
          (Message.mk 24 1 3 10)).transmitQueue
        = (receiverThread_process 5000 main_init (Message.mk 24 1 3 10)).transmitQueue :=
  ⟨by decide, by decide, by decide,
    (receiverThread_process_duplicate 5001
      (receiverThread_process 5000 main_init (Message.mk 24 1 3 10)) (Message.mk 24 1 3 10)
      (by decide) (by decide) 16 (by decide) [] 3).2.1⟩

/-! ### Handoff queue -/

theorem queue_push_size {α : Type} (q : CustomQueue α) (value : α) :
    (queue_push q value).size = (q.size + 1) % 2 ^ 32 := rfl

theorem queue_run_spec {α : Type} (ops : List (QueueOp α)) (q : CustomQueue α)
    (hq : q.size = q.nodes.length % 2 ^ 32) :
    (queue_run q ops).2.reduceOption ++ (queue_run q ops).1.nodes
        = q.nodes ++ QueueOp.pushed ops ∧
      (queue_run q ops).1.size = (queue_run q ops).1.nodes.length % 2 ^ 32 := by
  induction ops generalizing q with
  | nil => simp [queue_run, QueueOp.pushed, hq]
  | cons op rest ih =>
    cases op with
    | push value =>
      have hn := queue_push_nodes q value
      have hs : (queue_push q value).size = (queue_push q value).nodes.length % 2 ^ 32 := by
        rw [hn, queue_push_size, List.length_append, List.length_singleton]
        omega
      obtain ⟨h1, h2⟩ := ih (queue_push q value) hs
      simp only [queue_run, QueueOp.pushed]
      rw [h1, hn]
      exact ⟨by simp, h2⟩
    | pop =>
      cases hnodes : q.nodes with
      | nil =>
        have hp : queue_pop q = (none, q) := by
          unfold queue_pop; rw [hnodes]
        obtain ⟨h1, h2⟩ := ih q hq
        simp only [queue_run, QueueOp.pushed, hp, List.reduceOption_cons_of_none]
        rw [h1, hnodes]
        exact ⟨rfl, h2⟩
      | cons value next =>
        obtain ⟨sz, hsz⟩ : ∃ sz, sz = (q.size + 2 ^ 32 - 1) % 2 ^ 32 := ⟨_, rfl⟩
        have hp : queue_pop q = (some value, { nodes := next, size := sz }) := by
          unfold queue_pop; rw [hnodes, hsz]
        have hs : sz = next.length % 2 ^ 32 := by
          rw [hsz, hq, hnodes, List.length_cons]
          omega
        obtain ⟨h1, h2⟩ := ih { nodes := next, size := sz } hs
        simp only [queue_run, QueueOp.pushed, hp, List.reduceOption_cons_of_some]
        simp only at h1
        exact ⟨by simp [h1], h2⟩

/-- The queue is first-in first-out.  For every sequence of `queue_push` and `queue_pop`
calls on a queue made by `queue_create`: the values returned by the pops so far, followed by
the values still in the queue, are the pushed values in push order; the next `queue_pop`
returns the earliest pushed value not yet popped, and `NULL` with the queue untouched when
there is none; and while fewer than `2 ^ 32` values wait in the queue, `queue_empty` returns
true exactly when every pushed value has been popped (in general it returns true exactly
when the number of waiting values is a multiple of `2 ^ 32`). -/
theorem queue_run_fifo {α : Type} (ops : List (QueueOp α)) :
    (queue_run queue_create ops).2.reduceOption ++ (queue_run queue_create ops).1.nodes
        = QueueOp.pushed ops ∧
      (queue_pop (queue_run queue_create ops).1).1
        = (QueueOp.pushed ops)[(queue_run queue_create ops).2.reduceOption.length]? ∧
      ((queue_pop (queue_run queue_create ops).1).1 = none →
        (queue_pop (queue_run queue_create ops).1).2 = (queue_run queue_create ops).1) ∧
      (queue_empty (queue_run queue_create ops).1 = 1 ↔
        ((QueueOp.pushed ops).length - (queue_run queue_create ops).2.reduceOption.length)
          % 2 ^ 32 = 0) ∧
      ((QueueOp.pushed ops).length - (queue_run queue_create ops).2.reduceOption.length
          < 2 ^ 32 →
        (queue_empty (queue_run queue_create ops).1 = 1 ↔
          (queue_run queue_create ops).2.reduceOption.length = (QueueOp.pushed ops).length)) := by
  obtain ⟨h1, h2⟩ := queue_run_spec ops (queue_create : CustomQueue α) rfl
  have h1 : (queue_run queue_create ops).2.reduceOption ++ (queue_run queue_create ops).1.nodes
      = QueueOp.pushed ops := by simpa [queue_create] using h1
  have hlen : (QueueOp.pushed ops).length
      = (queue_run queue_create ops).2.reduceOption.length
        + (queue_run queue_create ops).1.nodes.length := by
    rw [← h1, List.length_append]
  have hempty : queue_empty (queue_run queue_create ops).1 = 1
      ↔ (queue_run queue_create ops).1.nodes.length % 2 ^ 32 = 0 := by
    unfold queue_empty
    rw [h2]
    split <;> simp_all
  refine ⟨h1, ?_, ?_, ?_, ?_⟩
  · rw [← h1, List.getElem?_append_right (Nat.le_refl _), Nat.sub_self]
    unfold queue_pop
    cases (queue_run queue_create ops).1.nodes <;> simp
  · unfold queue_pop
    cases (queue_run queue_create ops).1.nodes with
    | nil => intro _; rfl
    | cons v r => intro hc; simp at hc
  · rw [hempty, hlen]
    simp
  · intro hlt
    rw [hempty]
    omega

/-- An instance of `queue_run_fifo`: two pushes and one pop; one value waits in the queue. -/
theorem queue_run_fifo_witness :
    (QueueOp.pushed [QueueOp.push 7, QueueOp.push 8, QueueOp.pop]).length
        - (queue_run queue_create
            [QueueOp.push 7, QueueOp.push 8, QueueOp.pop]).2.reduceOption.length < 2 ^ 32 ∧
      (queue_empty (queue_run queue_create [QueueOp.push 7, QueueOp.push 8, QueueOp.pop]).1 = 1
        ↔ (queue_run queue_create
            [QueueOp.push 7, QueueOp.push 8, QueueOp.pop]).2.reduceOption.length
          = (QueueOp.pushed [QueueOp.push 7, QueueOp.push 8, QueueOp.pop]).length) :=
  ⟨by decide,
    (queue_run_fifo [QueueOp.push 7, QueueOp.push 8, QueueOp.pop]).2.2.2.2 (by decide)⟩

/-- C9, as the code has it.  When `recvfrom` returns a non-negative byte count other than
`sizeof(Message)`, the pass through the listener's loop changes nothing: the store, the
handoff queue and the lines written stay as they were (the datagram is dropped without a
line being logged), and the loop goes on to its next pass. -/
theorem receiverThread_iteration_wrong_size (host : Endian) (port : Int) (st : Shared)
    (ev : RecvEvent) (hready : 0 < ev.ready) (hset : ev.fd_isset = true)
    (hnonneg : 0 ≤ ev.bytes) (hsize : ev.bytes ≠ (sizeof_Message : Int)) :
    receiverThread_iteration host port st ev = (st, LoopControl.next) := by
  unfold receiverThread_iteration
  have h1 : ¬ ev.ready < 0 := by omega
  have h2 : ¬ ev.ready = 0 := by omega
  have h3 : ¬ (ev.bytes < 0 ∧ ev.errno_EAGAIN = false) := fun h => by omega
  rw [if_neg h1, if_neg h2, if_pos hset, if_neg hsize, if_neg h3]

/-- Witness for C9: a datagram of 5 bytes. -/
theorem receiverThread_iteration_wrong_size_witness :
    (0 : Int) < (RecvEvent.mk 1 true 5 false (Message.mk 0 0 0 0)).ready ∧
      (RecvEvent.mk 1 true 5 false (Message.mk 0 0 0 0)).fd_isset = true ∧
      (0 : Int) ≤ (RecvEvent.mk 1 true 5 false (Message.mk 0 0 0 0)).bytes ∧
      (RecvEvent.mk 1 true 5 false (Message.mk 0 0 0 0)).bytes ≠ (sizeof_Message : Int) ∧
      receiverThread_iteration Endian.little 5000 main_init
          (RecvEvent.mk 1 true 5 false (Message.mk 0 0 0 0))
        = (main_init, LoopControl.next) :=
  ⟨by decide, by decide, by decide, by decide,
    receiverThread_iteration_wrong_size Endian.little 5000 main_init
      (RecvEvent.mk 1 true 5 false (Message.mk 0 0 0 0)) (by decide) (by decide) (by decide)
      (by decide)⟩

/-- Counterexample to C9 as stated: a datagram of 5 bytes arrives at the listener of port
5000 in the initial state; after the pass no line at all has been written, so the datagram
was not logged as malformed. -/
theorem receiverThread_iteration_logs_nothing :
    (receiverThread_iteration Endian.little 5000 main_init
        (RecvEvent.mk 1 true 5 false (Message.mk 0 0 0 0))).1.output = [] := by
  decide

theorem connect_loop_calls_le (attempt : Nat → ConnectAttempt) (retries calls : Nat)
    (output : List Output) :
    (connect_loop attempt retries calls output).calls ≤ calls + retries + 1 := by
  induction retries generalizing calls output with
  | zero => simp [connect_loop]
  | succ r ih =>
    unfold connect_loop
    split
    · split
      · simp only; omega
      · have := ih (calls + 1) (output ++ [Output.logError "TCP connect failed, retrying..."])
        omega
    · simp only; omega

theorem connect_loop_all_refused (attempt : Nat → ConnectAttempt)
    (h : ∀ k, (attempt k).ret < 0 ∧ (attempt k).errno_EINPROGRESS = false)
    (retries calls : Nat) (output : List Output) :
    connect_loop attempt retries calls output
      = { retries := 0, calls := calls + retries + 1,
          output := output
            ++ List.replicate retries (Output.logError "TCP connect failed, retrying...") } := by
  induction retries generalizing calls output with
  | zero => simp [connect_loop]
  | succ r ih =>
    unfold connect_loop
    rw [if_pos (h calls).1, (h calls).2]
    simp only [Bool.false_and, Bool.false_eq_true, if_false]
    rw [ih, List.replicate_succ]
    simp only [List.append_assoc, List.singleton_append, ConnectState.mk.injEq, true_and,
      and_true]
    omega

/-- C10, as the code has it.  Whatever the calls of `connect` meet, the connection phase of
`transmitterThread` calls `connect` at most six times (a first call and at most five
retries), leaves the handoff queue untouched, and ends either at the dispatch loop or
returned after the line "TCP connection failed after retries".  When every call fails at
once (it returns -1 with an `errno` other than `EINPROGRESS`)
it makes exactly six calls, writes "TCP connect failed, retrying..." five times, then the
fatal line, and returns without popping anything from the handoff queue. -/
theorem transmitterThread_connect_bounded (attempt : Nat → ConnectAttempt)
    (transmitQueue : CustomQueue Message) :
    (transmitterThread_connect attempt transmitQueue).calls ≤ 6 ∧
      (transmitterThread_connect attempt transmitQueue).transmitQueue = transmitQueue ∧
      ((transmitterThread_connect attempt transmitQueue).phase = TransmitterPhase.dispatching ∨
        ((transmitterThread_connect attempt transmitQueue).phase = TransmitterPhase.returned ∧
          (transmitterThread_connect attempt transmitQueue).output.getLast?
            = some (Output.logError "TCP connection failed after retries"))) ∧
      ((∀ k, (attempt k).ret < 0 ∧ (attempt k).errno_EINPROGRESS = false) →
        transmitterThread_connect attempt transmitQueue
          = { phase := TransmitterPhase.returned, calls := 6,
              output := List.replicate 5 (Output.logError "TCP connect failed, retrying...")
                ++ [Output.logError "TCP connection failed after retries"],
              transmitQueue := transmitQueue }) := by
  have hle := connect_loop_calls_le attempt 5 0 []
  refine ⟨?_, ?_, ?_, ?_⟩
  · unfold transmitterThread_connect
    simp only
    split <;> simpa using hle
  · unfold transmitterThread_connect
    simp only
    split <;> rfl
  · unfold transmitterThread_connect
    simp only
    split
    · exact Or.inr ⟨rfl, by simp⟩
    · exact Or.inl rfl
  · intro h
    unfold transmitterThread_connect
    rw [connect_loop_all_refused attempt h 5 0 []]
    rfl

/-- Witness for C10: every call of `connect` is refused while one message waits in the
handoff queue. -/
theorem transmitterThread_connect_bounded_witness :
    (∀ k : Nat, ((fun _ => ConnectAttempt.refused) k : ConnectAttempt).ret < 0 ∧
        ((fun _ => ConnectAttempt.refused) k : ConnectAttempt).errno_EINPROGRESS = false) ∧
      transmitterThread_connect (fun _ => ConnectAttempt.refused)
          (queue_push queue_create (Message.mk 24 1 3 10))
        = { phase := TransmitterPhase.returned, calls := 6,
            output := List.replicate 5 (Output.logError "TCP connect failed, retrying...")
              ++ [Output.logError "TCP connection failed after retries"],
            transmitQueue := queue_push queue_create (Message.mk 24 1 3 10) } :=
  ⟨fun _ => ⟨by show ConnectAttempt.refused.ret < 0; decide, rfl⟩,
    (transmitterThread_connect_bounded (fun _ => ConnectAttempt.refused)
      (queue_push queue_create (Message.mk 24 1 3 10))).2.2.2 (fun _ => ⟨by show ConnectAttempt.refused.ret < 0; decide, rfl⟩)⟩

/-- Counterexample to C10 as stated: when every call of `connect` is refused, `connect` is
called six times, not five; the loop condition makes the sixth call after `retries` has
reached 0. -/
theorem transmitterThread_connect_six_calls :
    (transmitterThread_connect (fun _ => ConnectAttempt.refused) queue_create).calls = 6 ∧
      ¬ (transmitterThread_connect (fun _ => ConnectAttempt.refused) queue_create).calls ≤ 5 := by
  decide

/-! ### Network byte order in memory -/

theorem le_bytes_cons (width b r : Nat) (hb : b < 256) :
    le_bytes (width + 1) (b + 256 * r) = b :: le_bytes width r := by
  have h1 : (b + 256 * r) % 256 = b := by omega
  have h2 : (b + 256 * r) / 256 = r := by omega
  rw [le_bytes, h1, h2]

theorem le_bytes_two (b0 b1 : Nat) (h0 : b0 < 256) (h1 : b1 < 256) :
    le_bytes 2 (b0 + 256 * b1) = [b0, b1] := by
  have e : b1 = b1 + 256 * 0 := by omega
  rw [le_bytes_cons 1 b0 b1 h0, e, le_bytes_cons 0 b1 0 h1]
  rfl

theorem le_bytes_eight (b0 b1 b2 b3 b4 b5 b6 b7 : Nat) (h0 : b0 < 256) (h1 : b1 < 256)
    (h2 : b2 < 256) (h3 : b3 < 256) (h4 : b4 < 256) (h5 : b5 < 256) (h6 : b6 < 256)
    (h7 : b7 < 256) :
    le_bytes 8 (b0 + 256 * (b1 + 256 * (b2 + 256 * (b3 + 256 * (b4 + 256 * (b5 + 256 * (b6
      + 256 * (b7 + 256 * 0))))))))
      = [b0, b1, b2, b3, b4, b5, b6, b7] := by
  rw [le_bytes_cons _ b0 _ h0, le_bytes_cons _ b1 _ h1, le_bytes_cons _ b2 _ h2,
    le_bytes_cons _ b3 _ h3, le_bytes_cons _ b4 _ h4, le_bytes_cons _ b5 _ h5,
    le_bytes_cons _ b6 _ h6, le_bytes_cons _ b7 _ h7]
  rfl

/-- The eight bytes of a 64-bit value. -/
theorem le_bytes_eight_of_lt (x : Nat) (h : x < 2 ^ 64) :
    le_bytes 8 x = [x % 256, x / 256 % 256, x / 65536 % 256, x / 16777216 % 256,
      x / 4294967296 % 256, x / 1099511627776 % 256, x / 281474976710656 % 256,
      x / 72057594037927936 % 256] := by
  have hx : x = x % 256 + 256 * (x / 256 % 256 + 256 * (x / 65536 % 256 + 256 *
      (x / 16777216 % 256 + 256 * (x / 4294967296 % 256 + 256 * (x / 1099511627776 % 256
      + 256 * (x / 281474976710656 % 256 + 256 * (x / 72057594037927936 % 256 + 256 * 0)))))))
      := by omega
  rw [hx, le_bytes_eight _ _ _ _ _ _ _ _ (by omega) (by omega) (by omega) (by omega)
    (by omega) (by omega) (by omega) (by omega), ← hx]

/-- On a little-endian host `htonll` reverses the eight bytes. -/
theorem htonll_little_bytes (x : Nat) (h : x < 2 ^ 64) :
    htonll .little x
      = x / 72057594037927936 % 256 + 256 * (x / 281474976710656 % 256 + 256 *
        (x / 1099511627776 % 256 + 256 * (x / 4294967296 % 256 + 256 * (x / 16777216 % 256
        + 256 * (x / 65536 % 256 + 256 * (x / 256 % 256 + 256 * (x % 256 + 256 * 0))))))) := by
  rw [htonll_little]
  have hlo : x % 2 ^ 32 = x % 256 + 256 * (x / 256 % 256) + 65536 * (x / 65536 % 256)
      + 16777216 * (x / 16777216 % 256) := by omega
  have hhi : x / 2 ^ 32 % 2 ^ 32 = x / 4294967296 % 256 + 256 * (x / 1099511627776 % 256)
      + 65536 * (x / 281474976710656 % 256) + 16777216 * (x / 72057594037927936 % 256) := by
    omega
  rw [hlo, hhi, bswap32_bytes _ _ _ _ (by omega) (by omega) (by omega) (by omega),
    bswap32_bytes _ _ _ _ (by omega) (by omega) (by omega) (by omega)]
  omega

theorem uint_bytes_htonll (host : Endian) (x : Nat) (h : x < 2 ^ 64) :
    uint_bytes host 8 (htonll host x) = be_bytes 8 x := by
  cases host
  · unfold uint_bytes be_bytes
    simp only
    rw [htonll_little_bytes x h, le_bytes_eight _ _ _ _ _ _ _ _ (by omega) (by omega)
      (by omega) (by omega) (by omega) (by omega) (by omega) (by omega),
      le_bytes_eight_of_lt x h]
    rfl
  · rfl

theorem uint_bytes_htons (host : Endian) (x : Nat) (h : x < 2 ^ 16) :
    uint_bytes host 2 (htons host x) = be_bytes 2 x := by
  have hx : x = x % 256 + 256 * (x / 256) := by omega
  cases host
  · unfold uint_bytes be_bytes htons
    simp only
    rw [Nat.mod_eq_of_lt h]
    have hs : bswap16 x = x / 256 + 256 * (x % 256) := by
      rw [hx, bswap16_bytes _ _ (by omega) (by omega)]
      omega
    rw [hs, le_bytes_two _ _ (by omega) (by omega)]
    rw [hx, le_bytes_two _ _ (by omega) (by omega)]
    simp only [List.reverse_cons, List.reverse_nil, List.nil_append, List.singleton_append,
      List.cons.injEq, and_true]
    omega
  · unfold uint_bytes htons
    simp only
    rw [Nat.mod_eq_of_lt h]

theorem bswap64_bytes (x : Nat) (h : x < 2 ^ 64) :
    bswap64 x
      = x / 72057594037927936 % 256 + 256 * (x / 281474976710656 % 256 + 256 *
        (x / 1099511627776 % 256 + 256 * (x / 4294967296 % 256 + 256 * (x / 16777216 % 256
        + 256 * (x / 65536 % 256 + 256 * (x / 256 % 256 + 256 * (x % 256 + 256 * 0))))))) := by
  unfold bswap64
  rw [le_bytes_eight_of_lt x h]
  rfl

/-- C13. For every 64-bit value `x`, the bytes `htonll(x)` occupies in memory are the
big-endian bytes of `x`, on a little-endian and on a big-endian host: on the former
`htonll(x)` is the reversal of the eight bytes of `x`, on the latter it is `x`.  So the
frame `asyncSendWorker` sends carries `MessageSize`, `MessageId` and `MessageData` in network
byte order on either kind of host. -/
theorem htonll_network_order (host : Endian) (x : Nat) (hx : x < 2 ^ 64) (padding : Padding)
    (m : Message) (hm : m.InRange) :
    uint_bytes host 8 (htonll host x) = be_bytes 8 x ∧
      htonll .little x = bswap64 x ∧
      htonll .big x = x ∧
      Message_bytes host padding (asyncSendWorker_encode host m)
        = be_bytes 2 m.MessageSize ++ [m.MessageType]
          ++ [padding.b3, padding.b4, padding.b5, padding.b6, padding.b7]
          ++ be_bytes 8 m.MessageId ++ be_bytes 8 m.MessageData := by
  obtain ⟨hs, ht, hi, hd⟩ := hm
  refine ⟨uint_bytes_htonll host x hx, ?_, rfl, ?_⟩
  · rw [htonll_little_bytes x hx, bswap64_bytes x hx]
  · unfold Message_bytes asyncSendWorker_encode
    simp only
    rw [uint_bytes_htons host _ hs, uint_bytes_htonll host _ hi, uint_bytes_htonll host _ hd]
    have h1 : uint_bytes host 1 m.MessageType = [m.MessageType] := by
      have ht2 : m.MessageType % 256 = m.MessageType := Nat.mod_eq_of_lt ht
      cases host <;> simp [uint_bytes, be_bytes, le_bytes, ht2]
    rw [h1]

/-- Witness for C13: the value `0x0102030405060708` and the message `{24, 1, 3, 10}` on a
little-endian host. -/
theorem htonll_network_order_witness :
    (0x0102030405060708 : Nat) < 2 ^ 64 ∧ (Message.mk 24 1 3 10).InRange ∧
      uint_bytes .little 8 (htonll .little 0x0102030405060708)
        = be_bytes 8 0x0102030405060708 :=
  ⟨by decide, by decide,
    (htonll_network_order .little 0x0102030405060708 (by decide) ⟨0, 0, 0, 0, 0⟩
      (Message.mk 24 1 3 10) (by decide)).1⟩

/-! ### Send worker -/

theorem le_bytes_length (width v : Nat) : (le_bytes width v).length = width := by
  induction width generalizing v with
  | zero => rfl
  | succ w ih => simp [le_bytes, ih]

theorem uint_bytes_length (host : Endian) (width v : Nat) :
    (uint_bytes host width v).length = width := by
  cases host <;> simp [uint_bytes, be_bytes, le_bytes_length]

theorem Message_bytes_length (host : Endian) (padding : Padding) (m : Message) :
    (Message_bytes host padding m).length = sizeof_Message := by
  simp [Message_bytes, uint_bytes_length, sizeof_Message]

theorem accepted_total_of_ok_zero (outcomes : List SendOutcome)
    (h : SendOutcomesOk 0 outcomes) : accepted_total outcomes = 0 := by
  induction outcomes with
  | nil => rfl
  | cons o rest ih =>
    unfold SendOutcomesOk at h
    unfold accepted_total
    by_cases hneg : o.result < 0
    · rw [if_pos hneg] at h ⊢
      rw [ih h.2]
    · rw [if_neg hneg] at h
      omega

/-- The send loop under outcomes that are transient failures or partial writes: no line is
written, the loop is not aborted, the bytes accepted so far are the first `sent` bytes of
the frame, `sent` is the sum of the accepted counts, and the loop has ended exactly when
`sent` has reached `sizeof(Message)`. -/
theorem send_loop_spec (frame : List Nat) (id : Nat)
    (outcomes : List SendOutcome) (sent : Nat) (wire : List Nat)
    (hsent : sent ≤ sizeof_Message) (hwire : wire = frame.take sent)
    (hok : SendOutcomesOk (sizeof_Message - sent) outcomes) :
    (send_loop frame id outcomes sent wire).wire
        = frame.take (send_loop frame id outcomes sent wire).sent ∧
      (send_loop frame id outcomes sent wire).sent = sent + accepted_total outcomes ∧
      (send_loop frame id outcomes sent wire).sent ≤ sizeof_Message ∧
      (send_loop frame id outcomes sent wire).output = [] ∧
      (send_loop frame id outcomes sent wire).status ≠ SendStatus.aborted ∧
      ((send_loop frame id outcomes sent wire).status = SendStatus.completed
        ↔ (send_loop frame id outcomes sent wire).sent = sizeof_Message) := by
  induction outcomes generalizing sent wire with
  | nil =>
    unfold send_loop
    by_cases hlt : sent < sizeof_Message
    · rw [if_pos hlt]
      refine ⟨hwire, rfl, hsent, rfl, by simp, ?_⟩
      simp only [reduceCtorEq, false_iff]
      omega
    · rw [if_neg hlt]
      refine ⟨hwire, rfl, hsent, rfl, by simp, ?_⟩
      simp only [true_iff]
      omega
  | cons o rest ih =>
    unfold send_loop
    by_cases hlt : sent < sizeof_Message
    · rw [if_pos hlt]
      unfold SendOutcomesOk at hok
      by_cases hneg : o.result < 0
      · rw [if_pos hneg] at hok ⊢
        rw [if_pos hok.1]
        have := ih sent wire hsent hwire hok.2
        unfold accepted_total
        rw [if_pos hneg, Nat.zero_add]
        exact this
      · rw [if_neg hneg] at hok ⊢
        obtain ⟨h1, h2, h3⟩ := hok
        have hw : wire ++ (frame.drop sent).take o.result.toNat
            = frame.take (sent + o.result.toNat) := by
          rw [hwire, List.take_add]
        have h3b : SendOutcomesOk (sizeof_Message - (sent + o.result.toNat)) rest := by
          rw [Nat.sub_add_eq]; exact h3
        have := ih (sent + o.result.toNat) _ (by omega) hw h3b
        unfold accepted_total
        rw [if_neg hneg, ← Nat.add_assoc]
        exact this
    · rw [if_neg hlt]
      have hz : sizeof_Message - sent = 0 := by omega
      rw [hz] at hok
      rw [accepted_total_of_ok_zero _ hok]
      refine ⟨hwire, rfl, hsent, rfl, by simp, ?_⟩
      simp only [true_iff]
      omega

/-- C11. For every task and every finite sequence of outcomes of `send` in which each call
accepts between 1 byte and the bytes that remain, or fails with `EAGAIN`/`EWOULDBLOCK`,
and whose accepted counts sum to `sizeof(Message)`: the send loop of `asyncSendWorker` ends
by its test with `sent == sizeof(Message)`, without an error line, and the bytes `send`
accepted, in the order it accepted them, are exactly the bytes of the encoded frame.  While
the loop runs, the bytes accepted so far are the first `sent` bytes of the frame. -/
theorem asyncSendWorker_task_partial_writes (host : Endian) (padding : Padding)
    (task : SendTask) (outcomes : List SendOutcome)
    (hok : SendOutcomesOk sizeof_Message outcomes) :
    (asyncSendWorker_task host padding task outcomes).wire
        = (Message_bytes host padding (asyncSendWorker_encode host task.msg)).take
            (asyncSendWorker_task host padding task outcomes).sent ∧
      (asyncSendWorker_task host padding task outcomes).sent = accepted_total outcomes ∧
      (accepted_total outcomes = sizeof_Message →
        (asyncSendWorker_task host padding task outcomes).status = SendStatus.completed ∧
        (asyncSendWorker_task host padding task outcomes).sent = sizeof_Message ∧
        (asyncSendWorker_task host padding task outcomes).wire
          = Message_bytes host padding (asyncSendWorker_encode host task.msg) ∧
        (asyncSendWorker_task host padding task outcomes).output
          = [WorkerOutput.transmitted task.msg.MessageId]) := by
  have hlen := Message_bytes_length host padding (asyncSendWorker_encode host task.msg)
  obtain ⟨h1, h2, h3, h4, h5, h6⟩ := send_loop_spec
    (Message_bytes host padding (asyncSendWorker_encode host task.msg)) task.msg.MessageId
    outcomes 0 [] (Nat.zero_le _) rfl hok
  rw [Nat.zero_add] at h2
  have hw : (asyncSendWorker_task host padding task outcomes).wire
      = (send_loop (Message_bytes host padding (asyncSendWorker_encode host task.msg))
          task.msg.MessageId outcomes 0 []).wire := by
    unfold asyncSendWorker_task
    simp only
    split <;> rfl
  have hs : (asyncSendWorker_task host padding task outcomes).sent
      = (send_loop (Message_bytes host padding (asyncSendWorker_encode host task.msg))
          task.msg.MessageId outcomes 0 []).sent := by
    unfold asyncSendWorker_task
    simp only
    split <;> rfl
  refine ⟨by rw [hw, hs]; exact h1, by rw [hs]; exact h2, ?_⟩
  intro htot
  have hsent := h2.trans htot
  have hst := h6.mpr hsent
  refine ⟨?_, by rw [hs]; exact hsent, ?_, ?_⟩
  · unfold asyncSendWorker_task
    simp only [hst]
  · rw [hw, h1, hsent, ← hlen, List.take_length]
  · unfold asyncSendWorker_task
    simp only [hst, h4, List.nil_append]

/-- Witness for C11: the frame of the message `{24, 1, 3, 10}` goes out in chunks of 10 and
14 bytes with a transient failure in between. -/
theorem asyncSendWorker_task_partial_writes_witness :
    SendOutcomesOk sizeof_Message
        [SendOutcome.mk 10 false, SendOutcome.mk (-1) true, SendOutcome.mk 14 false] ∧
      accepted_total
        [SendOutcome.mk 10 false, SendOutcome.mk (-1) true, SendOutcome.mk 14 false]
        = sizeof_Message ∧
      (asyncSendWorker_task .little ⟨0, 0, 0, 0, 0⟩ ⟨7, Message.mk 24 1 3 10⟩
        [SendOutcome.mk 10 false, SendOutcome.mk (-1) true, SendOutcome.mk 14 false]).wire
        = Message_bytes .little ⟨0, 0, 0, 0, 0⟩
            (asyncSendWorker_encode .little (Message.mk 24 1 3 10)) :=
  ⟨by simp [SendOutcomesOk, sizeof_Message], by decide,
    ((asyncSendWorker_task_partial_writes .little ⟨0, 0, 0, 0, 0⟩
      ⟨7, Message.mk 24 1 3 10⟩
      [SendOutcome.mk 10 false, SendOutcome.mk (-1) true, SendOutcome.mk 14 false]
      (by simp [SendOutcomesOk, sizeof_Message])).2.2 (by decide)).2.2.1⟩

/-- C15, the code at the failing input.  When a call of `send` fails with an `errno` that
is neither `EAGAIN` nor `EWOULDBLOCK` before the frame is out, here the first call,
`asyncSendWorker` leaves its send loop by `break` with no byte sent and still writes
"Transmitted: ID=..." after the error line. -/
theorem asyncSendWorker_task_aborted_reports_transmitted (host : Endian) (padding : Padding)
    (task : SendTask) (rest : List SendOutcome) :
    asyncSendWorker_task host padding task (SendOutcome.mk (-1) false :: rest)
      = { sent := 0, wire := [],
          output := [WorkerOutput.async_send_failed task.msg.MessageId,
            WorkerOutput.transmitted task.msg.MessageId],
          status := SendStatus.aborted } := by
  unfold asyncSendWorker_task send_loop
  rfl

/-! ### Dispatch loop -/

theorem transmitterThread_dispatch_of_empty (done : Nat) (hdone : done ≠ 0) (dup : Nat → Int)
    (fuel : Nat) (st : DispatchState) (h : queue_empty st.transmitQueue = 1) :
    transmitterThread_dispatch done dup (fuel + 1) st = DispatchResult.finished st := by
  unfold transmitterThread_dispatch
  rw [if_pos ⟨hdone, h⟩]

/-- The dispatch loop after shutdown on a queue whose counter is the number of its nodes:
every node is popped and submitted, in order. -/
theorem transmitterThread_dispatch_spec (done : Nat) (hdone : done ≠ 0) (dup : Nat → Int)
    (ms : List Message) (size : Nat) (pool : ThreadPool) (pops fuel : Nat)
    (hsize : size = ms.length) (hlt : ms.length < 2 ^ 32) (hfuel : ms.length < fuel) :
    ∃ st, transmitterThread_dispatch done dup fuel
          { transmitQueue := { nodes := ms, size := size }, sendPool := pool, pops := pops }
        = DispatchResult.finished st ∧
      st.transmitQueue = queue_create ∧
      st.pops = pops + ms.length ∧
      st.sendPool.shutdown = pool.shutdown ∧
      st.sendPool.tasks.nodes
        = pool.tasks.nodes
          ++ (List.enumFrom pops ms).map (fun im => SendTask.mk (dup im.1) im.2) := by
  induction ms generalizing size pool pops fuel with
  | nil =>
    obtain ⟨f, rfl⟩ : ∃ f, fuel = f + 1 := ⟨fuel - 1, by omega⟩
    subst hsize
    refine ⟨_, transmitterThread_dispatch_of_empty done hdone dup f _ rfl, rfl, rfl, rfl, ?_⟩
    simp
  | cons m rest ih =>
    obtain ⟨f, rfl⟩ : ∃ f, fuel = f + 1 := ⟨fuel - 1, by omega⟩
    simp only [List.length_cons] at hsize hlt hfuel
    have hne : ¬ queue_empty ({ nodes := m :: rest, size := size } : CustomQueue Message) = 1 := by
      unfold queue_empty
      simp only
      rw [if_neg (by omega)]
      decide
    obtain ⟨sz, hsz⟩ : ∃ sz, sz = (size + 2 ^ 32 - 1) % 2 ^ 32 := ⟨_, rfl⟩
    have hsz2 : sz = rest.length := by omega
    have hpop : queue_pop ({ nodes := m :: rest, size := size } : CustomQueue Message)
        = (some m, { nodes := rest, size := sz }) := by
      unfold queue_pop
      simp only
      rw [hsz]
    obtain ⟨st, h1, h2, h3, h4, h5⟩ := ih sz
      (pool_add_task pool { sock := dup pops, msg := m }) (pops + 1) f hsz2 (by omega)
      (by omega)
    refine ⟨st, ?_, h2, by rw [h3, List.length_cons]; omega, by rw [h4]; rfl, ?_⟩
    · rw [transmitterThread_dispatch]
      simp only
      rw [if_neg (fun hc => hne hc.2), if_neg hne, hpop]
      exact h1
    · rw [h5]
      simp only [pool_add_task, queue_push_nodes, List.enumFrom_cons, List.map_cons,
        List.append_assoc, List.singleton_append]

/-- The dispatch loop when every evaluation of its test finds `done` set.  With no further
push, for every handoff queue that holds `m1..mn` with `n < 2 ^ 32`, the loop ends after
exactly `n` passes that pop, having submitted `n` tasks to the pool that carry `m1..mn` in
that order, each with its own `dup` of the socket, and leaves the handoff queue empty. -/
theorem transmitterThread_dispatch_drains (done : Nat) (hdone : done ≠ 0) (dup : Nat → Int)
    (q : CustomQueue Message) (pool : ThreadPool) (fuel : Nat)
    (hsize : q.size = q.nodes.length % 2 ^ 32) (hlt : q.nodes.length < 2 ^ 32)
    (hfuel : q.nodes.length < fuel) :
    ∃ st, transmitterThread_dispatch done dup fuel
          { transmitQueue := q, sendPool := pool, pops := 0 }
        = DispatchResult.finished st ∧
      st.pops = q.nodes.length ∧
      st.transmitQueue = queue_create ∧
      queue_empty st.transmitQueue = 1 ∧
      st.sendPool.tasks.nodes
        = pool.tasks.nodes ++ q.nodes.enum.map (fun im => SendTask.mk (dup im.1) im.2) ∧
      (st.sendPool.tasks.nodes.drop pool.tasks.nodes.length).map SendTask.msg = q.nodes := by
  have hsz : q.size = q.nodes.length := by
    rw [hsize]; exact Nat.mod_eq_of_lt hlt
  obtain ⟨st, h1, h2, h3, _, h5⟩ := transmitterThread_dispatch_spec done hdone dup q.nodes
    q.size pool 0 fuel hsz hlt hfuel
  refine ⟨st, h1, by rw [h3, Nat.zero_add], h2, by rw [h2]; rfl, h5, ?_⟩
  rw [h5, List.drop_left, List.map_map]
  have : (SendTask.msg ∘ fun im : Nat × Message => SendTask.mk (dup im.1) im.2) = Prod.snd := by
    funext im; rfl
  rw [this]
  exact List.enumFrom_map_snd 0 q.nodes

/-- An instance of `transmitterThread_dispatch_drains`: two messages wait in the handoff
queue when `done` is set. -/
theorem transmitterThread_dispatch_drains_witness :
    (1 : Nat) ≠ 0 ∧
      (queue_push (queue_push queue_create (Message.mk 24 1 0 10))
          (Message.mk 24 1 3 10)).size
        = (queue_push (queue_push queue_create (Message.mk 24 1 0 10))
            (Message.mk 24 1 3 10)).nodes.length % 2 ^ 32 ∧
      (queue_push (queue_push queue_create (Message.mk 24 1 0 10))
          (Message.mk 24 1 3 10)).nodes.length < 2 ^ 32 ∧
      (queue_push (queue_push queue_create (Message.mk 24 1 0 10))
          (Message.mk 24 1 3 10)).nodes.length < 3 ∧
      ∃ st, transmitterThread_dispatch 1 (fun k => 7 + k) 3
            { transmitQueue := queue_push (queue_push queue_create (Message.mk 24 1 0 10))
                (Message.mk 24 1 3 10),
              sendPool := { tasks := queue_create, shutdown := 0 }, pops := 0 }
          = DispatchResult.finished st ∧ st.pops = 2 :=
  ⟨by decide, by decide, by decide, by decide,
    (transmitterThread_dispatch_drains 1 (by decide) (fun k => 7 + k)
      (queue_push (queue_push queue_create (Message.mk 24 1 0 10)) (Message.mk 24 1 3 10))
      { tasks := queue_create, shutdown := 0 } 3 (by decide) (by decide) (by decide)).imp
      (fun _ h => ⟨h.1, h.2.1⟩)⟩

/-! ### Shutdown of the dispatcher -/

/-- A dispatcher that sits in `cond_wait` after `main` has made its one call of
`cond_signal` stays there, whatever the scheduler does. -/
theorem Shutdown.run_stuck (dup : Nat → Int) (done : Nat) (st : DispatchState)
    (schedule : List Bool) :
    Shutdown.run dup { done := done, st := st, dispatcher := .wait, main := .join } schedule
      = { done := done, st := st, dispatcher := .wait, main := .join } := by
  induction schedule with
  | nil => rfl
  | cons who rest ih =>
    have hstep : Shutdown.step dup
        { done := done, st := st, dispatcher := .wait, main := .join } who
        = { done := done, st := st, dispatcher := .wait, main := .join } := by
      cases who <;> rfl
    unfold Shutdown.run at ih ⊢
    rw [List.foldl_cons, hstep]
    exact ih

/-- When the dispatcher already sits in `cond_wait` as `main` sets `done` and signals, it is
woken, evaluates its test again and leaves the loop. -/
theorem transmitterThread_shutdown_wakes_waiter (dup : Nat → Int) (pool : ThreadPool) :
    Shutdown.run dup
        { done := 0, st := { transmitQueue := queue_create, sendPool := pool, pops := 0 },
          dispatcher := .test, main := .set_done }
        [false, false, false, true, true, false, false]
      = { done := 1, st := { transmitQueue := queue_create, sendPool := pool, pops := 0 },
          dispatcher := .closed, main := .join } := by
  rfl

/-- C12, the code at the failing input.  The handoff queue is empty (`n = 0`) and no push
follows.  The dispatcher evaluates its loop test and reads `done == 0`; `main` then executes
`done = 1` and `cond_signal(&cv)`, which finds no waiter; the dispatcher takes `mtxQueue`,
finds the queue empty and calls `cond_wait`.  From there no interleaving moves it: the
dispatch loop does not end, and `main` stays in `thread_join`. -/
theorem transmitterThread_shutdown_lost_wakeup (dup : Nat → Int) (pool : ThreadPool) :
    Shutdown.run dup
        { done := 0, st := { transmitQueue := queue_create, sendPool := pool, pops := 0 },
          dispatcher := .test, main := .set_done }
        [false, true, true, false, false]
      = { done := 1, st := { transmitQueue := queue_create, sendPool := pool, pops := 0 },
          dispatcher := .wait, main := .join } ∧
    ∀ schedule : List Bool,
      (Shutdown.run dup
        { done := 0, st := { transmitQueue := queue_create, sendPool := pool, pops := 0 },
          dispatcher := .test, main := .set_done }
        ([false, true, true, false, false] ++ schedule)).dispatcher = .wait := by
  have h : Shutdown.run dup
      { done := 0, st := { transmitQueue := queue_create, sendPool := pool, pops := 0 },
        dispatcher := .test, main := .set_done }
      [false, true, true, false, false]
      = { done := 1, st := { transmitQueue := queue_create, sendPool := pool, pops := 0 },
          dispatcher := .wait, main := .join } := rfl
  refine ⟨h, ?_⟩
  intro schedule
  have happ : Shutdown.run dup
      { done := 0, st := { transmitQueue := queue_create, sendPool := pool, pops := 0 },
        dispatcher := .test, main := .set_done }
      ([false, true, true, false, false] ++ schedule)
      = Shutdown.run dup (Shutdown.run dup
          { done := 0, st := { transmitQueue := queue_create, sendPool := pool, pops := 0 },
            dispatcher := .test, main := .set_done }
          [false, true, true, false, false]) schedule := by
    unfold Shutdown.run
    rw [List.foldl_append]
  rw [happ, h, Shutdown.run_stuck]

/-! ### Two listeners and `mtxStore` -/

theorem Listener.step_static (me : Bool) (l : Listener) (shared : Shared)
    (mtxStore : Option Bool) :
    (Listener.step me l shared mtxStore).1.port = l.port ∧
      (Listener.step me l shared mtxStore).1.msg = l.msg := by
  obtain ⟨port, msg, pc⟩ := l
  cases pc <;> simp only [Listener.step] <;> (try split) <;>
    first | exact ⟨rfl, rfl⟩ | exact ⟨trivial, trivial⟩

/-- A listener that holds `mtxStore`, or finds it free, moves on as `receiverThread` does
in a run of its own from the globals `base`. -/
theorem Listener.step_own (me : Bool) (l : Listener) (base shared : Shared)
    (mtxStore : Option Bool) (hs : shared = l.expected base) (hc : l.consistent base)
    (hm : mtxStore = if l.holds then some me else none) :
    (Listener.step me l shared mtxStore).2.1
        = (Listener.step me l shared mtxStore).1.expected base ∧
      (Listener.step me l shared mtxStore).1.consistent base ∧
      (Listener.step me l shared mtxStore).2.2
        = if (Listener.step me l shared mtxStore).1.holds then some me else none := by
  obtain ⟨port, msg, pc⟩ := l
  subst hs hm
  cases pc
  · simp [Listener.step, Listener.expected, Listener.consistent, Listener.holds]
  · by_cases h : hash_map_contains base.messageStore msg.MessageId = 0
    · simp [Listener.step, Listener.expected, Listener.consistent, Listener.holds, h]
    · simp [Listener.step, Listener.expected, Listener.consistent, Listener.holds, h]
  · simp only [Listener.consistent] at hc
    simp [Listener.step, Listener.expected, Listener.consistent, Listener.holds, hc]
  · simp only [Listener.consistent] at hc
    by_cases h : msg.MessageData = 10
    · simp [Listener.step, Listener.expected, Listener.consistent, Listener.holds, hc, h]
    · simp [Listener.step, Listener.expected, Listener.consistent, Listener.holds, hc, h,
        receiverThread_process]
  · simp only [Listener.consistent] at hc
    simp [Listener.step, Listener.expected, Listener.consistent, Listener.holds, hc,
      receiverThread_process]
  · simp only [Listener.consistent] at hc
    simp [Listener.step, Listener.expected, Listener.consistent, Listener.holds, hc,
      receiverThread_process]
  · simp [Listener.step, Listener.expected, Listener.consistent, Listener.holds]
  · simp [Listener.step, Listener.expected, Listener.consistent, Listener.holds]

theorem Listener.step_done (me : Bool) (l : Listener) (shared : Shared)
    (mtxStore : Option Bool) (h : l.pc = .done) :
    Listener.step me l shared mtxStore = (l, shared, mtxStore) := by
  unfold Listener.step
  rw [h]

theorem Listener.step_blocked (me other : Bool) (l : Listener) (shared : Shared)
    (h : l.pc = .lock) :
    Listener.step me l shared (some other) = (l, shared, some other) := by
  unfold Listener.step
  rw [h]

theorem Listener.step_lock (me : Bool) (l : Listener) (shared : Shared) (h : l.pc = .lock) :
    Listener.step me l shared none = ({ l with pc := .check }, shared, some me) := by
  unfold Listener.step
  rw [h]

/-- The listener that goes first moves. -/
theorem RaceLead_step_first (st0 : Shared) (a b : Listener) (ma mb : Bool) (shared : Shared)
    (mtxStore : Option Bool) (h : RaceLead st0 a b ma mb shared mtxStore) :
    RaceLead st0 (Listener.step ma a shared mtxStore).1 b ma mb
      (Listener.step ma a shared mtxStore).2.1 (Listener.step ma a shared mtxStore).2.2 := by
  rcases h with ⟨hb, hs, hc, hm⟩ | ⟨ha, hs, hc, hm⟩
  · obtain ⟨h1, h2, h3⟩ := Listener.step_own ma a st0 shared mtxStore hs hc hm
    exact Or.inl ⟨hb, h1, h2, h3⟩
  · rw [Listener.step_done ma a shared mtxStore ha]
    exact Or.inr ⟨ha, hs, hc, hm⟩

/-- The other listener moves: it stays blocked, or takes the free mutex, or goes on in its
critical section after the first one is through. -/
theorem RaceLead_step_second (st0 : Shared) (a b : Listener) (ma mb : Bool) (shared : Shared)
    (mtxStore : Option Bool) (h : RaceLead st0 a b ma mb shared mtxStore) :
    RaceLead st0 a (Listener.step mb b shared mtxStore).1 ma mb
        (Listener.step mb b shared mtxStore).2.1 (Listener.step mb b shared mtxStore).2.2 ∨
      RaceLead st0 (Listener.step mb b shared mtxStore).1 a mb ma
        (Listener.step mb b shared mtxStore).2.1 (Listener.step mb b shared mtxStore).2.2 := by
  rcases h with ⟨hb, hs, hc, hm⟩ | ⟨ha, hs, hc, hm⟩
  · by_cases hh : a.holds = true
    · rw [if_pos hh] at hm
      subst hm
      rw [Listener.step_blocked mb ma b shared hb]
      exact Or.inl (Or.inl ⟨hb, hs, hc, by rw [if_pos hh]⟩)
    · rw [if_neg hh] at hm
      subst hm
      rw [Listener.step_lock mb b shared hb]
      have hpc : a.pc = .lock ∨ a.pc = .done := by
        unfold Listener.holds at hh
        cases hpa : a.pc <;> simp_all
      rcases hpc with hpa | hpa
      · refine Or.inr (Or.inl ⟨hpa, ?_, trivial, rfl⟩)
        rw [hs]
        simp only [Listener.expected, hpa]
      · refine Or.inl (Or.inr ⟨hpa, ?_, trivial, rfl⟩)
        rw [hs]
        simp only [Listener.expected, hpa]
  · obtain ⟨h1, h2, h3⟩ := Listener.step_own mb b _ shared mtxStore hs hc hm
    exact Or.inl (Or.inr ⟨ha, h1, h2, h3⟩)

theorem RaceInv_step (st0 : Shared) (c : Race) (who : Bool) (h : RaceInv st0 c) :
    RaceInv st0 (c.step who) := by
  cases who
  · rcases h with h | h
    · exact Or.inl (RaceLead_step_first st0 c.first c.second false true _ _ h)
    · rcases RaceLead_step_second st0 c.second c.first true false _ _ h with h2 | h2
      · exact Or.inr h2
      · exact Or.inl h2
  · rcases h with h | h
    · rcases RaceLead_step_second st0 c.first c.second false true _ _ h with h2 | h2
      · exact Or.inl h2
      · exact Or.inr h2
    · exact Or.inr (RaceLead_step_first st0 c.second c.first true false _ _ h)

theorem RaceInv_init (st0 : Shared) (port1 : Int) (msg1 : Message) (port2 : Int)
    (msg2 : Message) : RaceInv st0 (Race.init st0 port1 msg1 port2 msg2) :=
  Or.inl (Or.inl ⟨rfl, rfl, trivial, rfl⟩)

theorem Race.run_spec (st0 : Shared) (c : Race) (schedule : List Bool) (h : RaceInv st0 c) :
    RaceInv st0 (c.run schedule) ∧
      (c.run schedule).first.port = c.first.port ∧ (c.run schedule).first.msg = c.first.msg ∧
      (c.run schedule).second.port = c.second.port ∧
      (c.run schedule).second.msg = c.second.msg := by
  induction schedule generalizing c with
  | nil => exact ⟨h, rfl, rfl, rfl, rfl⟩
  | cons who rest ih =>
    obtain ⟨h1, h2, h3, h4, h5⟩ := ih (c.step who) (RaceInv_step st0 c who h)
    have hst : (c.step who).first.port = c.first.port ∧ (c.step who).first.msg = c.first.msg ∧
        (c.step who).second.port = c.second.port ∧
        (c.step who).second.msg = c.second.msg := by
      cases who
      · have := Listener.step_static false c.first c.shared c.mtxStore
        exact ⟨this.1, this.2, rfl, rfl⟩
      · have := Listener.step_static true c.second c.shared c.mtxStore
        exact ⟨rfl, rfl, this.1, this.2⟩
    refine ⟨h1, ?_, ?_, ?_, ?_⟩
    · exact h2.trans hst.1
    · exact h3.trans hst.2.1
    · exact h4.trans hst.2.2.1
    · exact h5.trans hst.2.2.2

/-- Whatever the interleaving, once both listeners are through, the globals are what the
two critical sections leave when run one after the other, in one of the two orders. -/
theorem Race.run_serial (st0 : Shared) (port1 : Int) (msg1 : Message) (port2 : Int)
    (msg2 : Message) (schedule : List Bool)
    (h1 : ((Race.init st0 port1 msg1 port2 msg2).run schedule).first.pc = .done)
    (h2 : ((Race.init st0 port1 msg1 port2 msg2).run schedule).second.pc = .done) :
    ((Race.init st0 port1 msg1 port2 msg2).run schedule).shared
        = receiverThread_process port2 (receiverThread_process port1 st0 msg1) msg2 ∨
      ((Race.init st0 port1 msg1 port2 msg2).run schedule).shared
        = receiverThread_process port1 (receiverThread_process port2 st0 msg2) msg1 := by
  obtain ⟨hinv, p1, m1, p2, m2⟩ := Race.run_spec st0 _ schedule
    (RaceInv_init st0 port1 msg1 port2 msg2)
  have p1 : ((Race.init st0 port1 msg1 port2 msg2).run schedule).first.port = port1 := p1
  have m1 : ((Race.init st0 port1 msg1 port2 msg2).run schedule).first.msg = msg1 := m1
  have p2 : ((Race.init st0 port1 msg1 port2 msg2).run schedule).second.port = port2 := p2
  have m2 : ((Race.init st0 port1 msg1 port2 msg2).run schedule).second.msg = msg2 := m2
  rcases hinv with (⟨hb, _⟩ | ⟨_, hs, _, _⟩) | (⟨hb, _⟩ | ⟨_, hs, _, _⟩)
  · rw [h2] at hb; cases hb
  · left
    rw [hs]
    simp only [Listener.expected, h2, p1, m1, p2, m2]
  · rw [h1] at hb; cases hb
  · right
    rw [hs]
    simp only [Listener.expected, h1, p1, m1, p2, m2]

/-- Two critical sections one after the other for two messages with one `MessageId` the
store does not hold: the first inserts and, with the trigger value, queues its message;
the second only prints "skipped duplicate". -/
theorem receiverThread_process_same_id (st0 : Shared) (port1 : Int) (msg1 : Message)
    (port2 : Int) (msg2 : Message) (hw : st0.messageStore.WellFormed)
    (hid : msg1.MessageId = msg2.MessageId) (habs : msg1.MessageId ∉ st0.messageStore.keys) :
    receiverThread_process port2 (receiverThread_process port1 st0 msg1) msg2
        = { messageStore := hash_map_insert st0.messageStore msg1.MessageId msg1,
            transmitQueue :=
              if msg1.MessageData = 10 then queue_push st0.transmitQueue msg1
              else st0.transmitQueue,
            output := st0.output
              ++ [Output.received (receiver_number port1) msg1.MessageId msg1.MessageData,
                Output.skipped_duplicate (receiver_number port2) msg2.MessageId] } ∧
      hash_map_size (hash_map_insert st0.messageStore msg1.MessageId msg1)
        = hash_map_size st0.messageStore + 1 ∧
      (hash_map_insert st0.messageStore msg1.MessageId msg1).keys.count msg1.MessageId = 1 := by
  have hc0 : hash_map_contains st0.messageStore msg1.MessageId = 0 :=
    (hash_map_contains_eq_zero_iff _ hw _).mpr habs
  obtain ⟨w1, hp, hn⟩ := hash_map_insert_absent _ hw msg1.MessageId msg1 habs
  have hk : msg2.MessageId ∈ (hash_map_insert st0.messageStore msg1.MessageId msg1).keys := by
    rw [← hid]
    exact ((hash_map_insert_spec _ hw msg1.MessageId msg1).2 _).mpr (Or.inl rfl)
  have hc1 : hash_map_contains (hash_map_insert st0.messageStore msg1.MessageId msg1)
      msg2.MessageId = 1 := (hash_map_contains_eq_one_iff _ w1 _).mpr hk
  refine ⟨?_, hn, ?_⟩
  · by_cases ht : msg1.MessageData = 10
    · have e1 : receiverThread_process port1 st0 msg1
          = { messageStore := hash_map_insert st0.messageStore msg1.MessageId msg1,
              transmitQueue := queue_push st0.transmitQueue msg1,
              output := st0.output
                ++ [Output.received (receiver_number port1) msg1.MessageId
                  msg1.MessageData] } := by
        unfold receiverThread_process
        rw [if_pos hc0]
        simp only [ht, if_true]
      rw [e1]
      unfold receiverThread_process
      simp only [hc1, ht, if_true]
      simp
    · have e1 : receiverThread_process port1 st0 msg1
          = { messageStore := hash_map_insert st0.messageStore msg1.MessageId msg1,
              transmitQueue := st0.transmitQueue,
              output := st0.output
                ++ [Output.received (receiver_number port1) msg1.MessageId
                  msg1.MessageData] } := by
        unfold receiverThread_process
        rw [if_pos hc0]
        simp only [ht, if_false]
      rw [e1]
      unfold receiverThread_process
      simp only [hc1, ht, if_false]
      simp
  · have hpk : (hash_map_insert st0.messageStore msg1.MessageId msg1).keys.Perm
        (msg1.MessageId :: st0.messageStore.keys) := hp.map CustomHashMapNode.key
    rw [hpk.count_eq, List.count_cons_self, List.count_eq_zero_of_not_mem habs]

/-- C14.  The listeners run statement by statement under an arbitrary scheduler, and
`mutex_lock(&mtxStore)` blocks while the other listener holds the mutex.  Whatever the
interleaving, once both are through, the globals are what the two critical sections leave
when run one after the other in one of the two orders: check, insert and the decision to
queue act as one atomic step.  When both messages carry one `MessageId` the store did not
hold, exactly one listener inserts (it prints "received", the other "skipped duplicate"),
the store grows by one and holds the id once, and at most one message is pushed.  For
id 3 with data 10 on both ports from the initial state, the store holds id 3 once and the
queue holds exactly one `Message{id=3,data=10}`. -/
theorem Race.run_same_id (st0 : Shared) (port1 : Int) (msg1 : Message) (port2 : Int)
    (msg2 : Message) (schedule : List Bool) (hw : st0.messageStore.WellFormed)
    (hid : msg1.MessageId = msg2.MessageId) (habs : msg1.MessageId ∉ st0.messageStore.keys)
    (h1 : ((Race.init st0 port1 msg1 port2 msg2).run schedule).first.pc = .done)
    (h2 : ((Race.init st0 port1 msg1 port2 msg2).run schedule).second.pc = .done) :
    (((Race.init st0 port1 msg1 port2 msg2).run schedule).shared
        = receiverThread_process port2 (receiverThread_process port1 st0 msg1) msg2 ∨
      ((Race.init st0 port1 msg1 port2 msg2).run schedule).shared
        = receiverThread_process port1 (receiverThread_process port2 st0 msg2) msg1) ∧
    (((Race.init st0 port1 msg1 port2 msg2).run schedule).shared
        = { messageStore := hash_map_insert st0.messageStore msg1.MessageId msg1,
            transmitQueue :=
              if msg1.MessageData = 10 then queue_push st0.transmitQueue msg1
              else st0.transmitQueue,
            output := st0.output
              ++ [Output.received (receiver_number port1) msg1.MessageId msg1.MessageData,
                Output.skipped_duplicate (receiver_number port2) msg2.MessageId] } ∨
      ((Race.init st0 port1 msg1 port2 msg2).run schedule).shared
        = { messageStore := hash_map_insert st0.messageStore msg2.MessageId msg2,
            transmitQueue :=
              if msg2.MessageData = 10 then queue_push st0.transmitQueue msg2
              else st0.transmitQueue,
            output := st0.output
              ++ [Output.received (receiver_number port2) msg2.MessageId msg2.MessageData,
                Output.skipped_duplicate (receiver_number port1) msg1.MessageId] }) ∧
    hash_map_size ((Race.init st0 port1 msg1 port2 msg2).run schedule).shared.messageStore
      = hash_map_size st0.messageStore + 1 ∧
    ((Race.init st0 port1 msg1 port2 msg2).run schedule).shared.messageStore.keys.count
      msg1.MessageId = 1 ∧
    (∀ s : List Bool,
      ((Race.init main_init 5000 (Message.mk 24 1 3 10) 5001
          (Message.mk 24 1 3 10)).run s).first.pc = .done →
      ((Race.init main_init 5000 (Message.mk 24 1 3 10) 5001
          (Message.mk 24 1 3 10)).run s).second.pc = .done →
      ((Race.init main_init 5000 (Message.mk 24 1 3 10) 5001
          (Message.mk 24 1 3 10)).run s).shared.messageStore.keys = [3] ∧
      hash_map_size ((Race.init main_init 5000 (Message.mk 24 1 3 10) 5001
          (Message.mk 24 1 3 10)).run s).shared.messageStore = 1 ∧
      ((Race.init main_init 5000 (Message.mk 24 1 3 10) 5001
          (Message.mk 24 1 3 10)).run s).shared.transmitQueue.nodes
        = [Message.mk 24 1 3 10]) := by
  have hser := Race.run_serial st0 port1 msg1 port2 msg2 schedule h1 h2
  have habs2 : msg2.MessageId ∉ st0.messageStore.keys := by rw [← hid]; exact habs
  obtain ⟨a1, a2, a3⟩ := receiverThread_process_same_id st0 port1 msg1 port2 msg2 hw hid habs
  obtain ⟨b1, b2, b3⟩ := receiverThread_process_same_id st0 port2 msg2 port1 msg1 hw hid.symm
    habs2
  refine ⟨hser, ?_, ?_, ?_, ?_⟩
  · rcases hser with h | h
    · exact Or.inl (h.trans a1)
    · exact Or.inr (h.trans b1)
  · rcases hser with h | h
    · rw [h, a1]; exact a2
    · rw [h, b1]; exact b2
  · rcases hser with h | h
    · rw [h, a1]; exact a3
    · rw [h, b1, hid]; exact b3
  · intro s hs1 hs2
    rcases Race.run_serial main_init 5000 (Message.mk 24 1 3 10) 5001 (Message.mk 24 1 3 10)
      s hs1 hs2 with h | h
    · rw [h]; decide
    · rw [h]; decide

/-- Witness for C14: both listeners hold `Message{id=3,data=10}`; the second takes the mutex
first while the scheduler keeps offering the blocked first listener its turn. -/
theorem Race.run_same_id_witness :
    main_init.messageStore.WellFormed ∧
      (Message.mk 24 1 3 10).MessageId = (Message.mk 24 1 3 10).MessageId ∧
      (Message.mk 24 1 3 10).MessageId ∉ main_init.messageStore.keys ∧
      ((Race.init main_init 5000 (Message.mk 24 1 3 10) 5001 (Message.mk 24 1 3 10)).run
        [true, false, true, false, true, true, false, true, true, false, false, false,
          false]).first.pc = .done ∧
      ((Race.init main_init 5000 (Message.mk 24 1 3 10) 5001 (Message.mk 24 1 3 10)).run
        [true, false, true, false, true, true, false, true, true, false, false, false,
          false]).second.pc = .done ∧
      hash_map_size ((Race.init main_init 5000 (Message.mk 24 1 3 10) 5001
          (Message.mk 24 1 3 10)).run
        [true, false, true, false, true, true, false, true, true, false, false, false,
          false]).shared.messageStore
        = hash_map_size main_init.messageStore + 1 :=
  ⟨by decide, rfl, by decide, by decide, by decide,
    (Race.run_same_id main_init 5000 (Message.mk 24 1 3 10) 5001 (Message.mk 24 1 3 10)
      [true, false, true, false, true, true, false, true, true, false, false, false, false]
      (by decide) rfl (by decide) (by decide) (by decide)).2.2.1⟩

end MessageTransmission
